import Mathlib

/-!
Verification of the kubeyaml manifest editor (`kubeyaml.py`).

We give a shallow embedding of the program's core: YAML document trees are
modelled by the mutual inductive `Val` (mappings with string keys, sequences,
strings, integers), Python exceptions by `PyErr` threaded through `Except`,
and each Python function is translated to a Lean function of the same name.
Python dicts preserve insertion order, so mappings are association lists with
unique keys; `del`, `[]=` and iteration follow Python's semantics.

Python raises distinct exception classes; the program only ever catches
`KeyError` (and its own `NotFound`), so we keep `keyError` and `notFound`
exact and collapse the remaining uncatchable classes (`TypeError`,
`AttributeError`) into `typeError`.
-/

set_option autoImplicit false

namespace Kubeyaml

mutual

/-- A Python/YAML value: string, int, dict (string keys, insertion order),
or list.  Non-string scalars other than ints (floats, bools, None) do not
occur in the behaviours verified here. -/
inductive Val where
  | str (s : String)
  | int (n : Int)
  | map (entries : Fields)
  | list (items : Items)
deriving DecidableEq

/-- The entries of a Python dict, in insertion order. -/
inductive Fields where
  | nil
  | cons (key : String) (value : Val) (rest : Fields)
deriving DecidableEq

/-- The elements of a Python list. -/
inductive Items where
  | nil
  | cons (value : Val) (rest : Items)
deriving DecidableEq

end

/-- Build a `Fields` from a Lean list (for writing concrete manifests). -/
def fieldsOf : List (String × Val) → Fields
  | [] => .nil
  | (k, v) :: rest => .cons k v (fieldsOf rest)

/-- Build an `Items` from a Lean list. -/
def itemsOf : List Val → Items
  | [] => .nil
  | v :: rest => .cons v (itemsOf rest)

/-- A dict value from a Lean association list. -/
def mapOf (l : List (String × Val)) : Val := .map (fieldsOf l)

/-- A list value from a Lean list. -/
def listOf (l : List Val) : Val := .list (itemsOf l)

/-- The elements of an `Items` as a Lean list. -/
def Items.toList : Items → List Val
  | .nil => []
  | .cons v rest => v :: rest.toList

/-- The entries of a `Fields` as a Lean list. -/
def Fields.toList : Fields → List (String × Val)
  | .nil => []
  | .cons k v rest => (k, v) :: rest.toList

/-- Python `d[k]` result for dict entries: the first entry with the key. -/
def flookup : Fields → String → Option Val
  | .nil, _ => none
  | .cons k v rest, key => if k = key then some v else flookup rest key

/-- Python `k in d` for a dict. -/
def fcontains (es : Fields) (key : String) : Bool := (flookup es key).isSome

/-- Python `d[k] = v`: overwrite in place if the key exists, else append. -/
def finsert : Fields → String → Val → Fields
  | .nil, key, v => .cons key v .nil
  | .cons k w rest, key, v =>
      if k = key then .cons k v rest else .cons k w (finsert rest key v)

/-- Python `del d[k]` after the key was checked present: drop the entry. -/
def fdelete : Fields → String → Fields
  | .nil, _ => .nil
  | .cons k w rest, key => if k = key then rest else .cons k w (fdelete rest key)

/-- Number of entries (`len` of a dict). -/
def fsize : Fields → Nat
  | .nil => 0
  | .cons _ _ rest => 1 + fsize rest

/-- Length of a list value (`len` of a list). -/
def isize : Items → Nat
  | .nil => 0
  | .cons _ rest => 1 + isize rest

/-- The Python exception classes the program can raise.  `keyError` is
`KeyError` (the only built-in the program catches); `typeError` stands for
the uncatchable `TypeError`/`AttributeError` family; `notFound` is the
program's own `NotFound`. -/
inductive PyErr where
  | keyError
  | typeError
  | notFound
deriving DecidableEq

instance {ε α : Type} [DecidableEq ε] [DecidableEq α] : DecidableEq (Except ε α) := by
  intro a b
  cases a <;> cases b
  case error.error e1 e2 =>
    exact if h : e1 = e2 then .isTrue (by rw [h]) else .isFalse (by intro hh; injection hh; contradiction)
  case ok.ok v1 v2 =>
    exact if h : v1 = v2 then .isTrue (by rw [h]) else .isFalse (by intro hh; injection hh; contradiction)
  case error.ok e v => exact .isFalse (by intro hh; exact Except.noConfusion hh)
  case ok.error v e => exact .isFalse (by intro hh; exact Except.noConfusion hh)

/-- Python `v[key]` with a string key.  On a dict it is a lookup raising
`KeyError` when absent; indexing a string or list by a string, or an int,
raises `TypeError`. -/
def getItem (v : Val) (key : String) : Except PyErr Val :=
  match v with
  | .map es =>
      match flookup es key with
      | some x => .ok x
      | none => .error .keyError
  | _ => .error .typeError

/-- Python `v.get(key, dflt)`.  Calling `.get` on anything but a dict raises
`AttributeError` (our `typeError`). -/
def getDefault (v : Val) (key : String) (dflt : Val) : Except PyErr Val :=
  match v with
  | .map es => .ok ((flookup es key).getD dflt)
  | _ => .error .typeError

/-- Python `v[key] = x` with a string key (only meaningful on a dict). -/
def setItem (v : Val) (key : String) (x : Val) : Except PyErr Val :=
  match v with
  | .map es => .ok (.map (finsert es key x))
  | _ => .error .typeError

/-- Substring test on character lists (Python `needle in haystack` for
strings). -/
def isSubstring (needle hay : List Char) : Bool :=
  match hay with
  | [] => needle.isEmpty
  | _ :: rest => needle.isPrefixOf hay || isSubstring needle rest

/-- Python `key in v`.  Dict: key test; string: substring test; list:
membership; int: `TypeError`. -/
def pyContains (v : Val) (key : String) : Except PyErr Bool :=
  match v with
  | .map es => .ok (fcontains es key)
  | .str s => .ok (isSubstring key.data s.data)
  | .list l => .ok (l.toList.contains (.str key))
  | .int _ => .error .typeError

/-- Python `len(v)`: strings, dicts and lists have lengths; `len` of an int
raises `TypeError`. -/
def pyLen (v : Val) : Except PyErr Nat :=
  match v with
  | .str s => .ok s.length
  | .map es => .ok (fsize es)
  | .list l => .ok (isize l)
  | .int _ => .error .typeError

/-! String helpers.  We work on `List Char` (via `String.data`) so that all
operations are plain structural recursions. -/

/-- ASCII lower-casing of one character (`str.lower` on the ASCII range; the
program only compares ASCII `kind` names). -/
def lowerChar (c : Char) : Char :=
  if 'A' ≤ c ∧ c ≤ 'Z' then Char.ofNat (c.toNat + 32) else c

/-- Python `s.lower()` (ASCII). -/
def strLower (s : String) : String := ⟨s.data.map lowerChar⟩

/-- Python `s.endswith(suffix)`. -/
def strEndsWith (s suffix : String) : Bool := suffix.data.isSuffixOf s.data

/-- Python `s.startswith(pre)`. -/
def strStartsWith (s pre : String) : Bool := pre.data.isPrefixOf s.data

/-- Python `s.split(sep)` for a one-character separator, on char lists:
always returns at least one (possibly empty) piece. -/
def splitC (c : Char) : List Char → List (List Char)
  | [] => [[]]
  | a :: as =>
      if a = c then [] :: splitC c as
      else
        match splitC c as with
        | [] => [[a]]
        | p :: ps => (a :: p) :: ps

/-- Python `sep.join(pieces)` for a one-character separator. -/
def joinC (c : Char) : List (List Char) → List Char
  | [] => []
  | [p] => p
  | p :: ps => p ++ c :: joinC c ps

/-- Python `s.split(sep)` producing strings. -/
def splitStr (c : Char) (s : String) : List String :=
  (splitC c s.data).map (fun l => ⟨l⟩)

/-- ASCII alphanumeric (the regex class `[a-zA-Z0-9]`). -/
def isAlnumA (c : Char) : Bool :=
  ('a' ≤ c ∧ c ≤ 'z') ∨ ('A' ≤ c ∧ c ≤ 'Z') ∨ ('0' ≤ c ∧ c ≤ '9')

/-- ASCII digit (the regex class `[0-9]`). -/
def isDigitA (c : Char) : Bool := '0' ≤ c ∧ c ≤ '9'

/-- The chars after the head of a domain component: all alphanumeric or `-`,
ending alphanumeric (regex `[a-zA-Z0-9-]*[a-zA-Z0-9]` or empty). -/
def compTail : List Char → Bool
  | [] => true
  | [b] => isAlnumA b
  | b :: rest => (isAlnumA b || b = '-') && compTail rest

/-- The regex `domainComponent`:
`[a-zA-Z0-9]|[a-zA-Z0-9][a-zA-Z0-9-]*[a-zA-Z0-9]`, i.e. nonempty, first and
last char alphanumeric, inner chars alphanumeric or hyphen. -/
def isDomainComp : List Char → Bool
  | [] => false
  | a :: rest => isAlnumA a && compTail rest

/-- The base of the `domain` regex: `localhost|dc([.]dc)+`.  A `dc` cannot
contain a dot, so matching is exactly: split on `.` into at least two
pieces, all of which are domain components. -/
def domBase (s : List Char) : Bool :=
  s = "localhost".data ||
    (let cs := splitC '.' s
     decide (2 ≤ cs.length) && cs.all isDomainComp)

/-- `re.fullmatch` of the `domain` regex
`(localhost|dc([.]dc)+)(:[0-9]+)?`: the base contains no colon and the port
is nonempty digits, so a full match is exactly a colon-split into the base
alone or base and port. -/
def matchesDomainC (s : List Char) : Bool :=
  match splitC ':' s with
  | [b] => domBase b
  | [b, p] => domBase b && !p.isEmpty && p.all isDigitA
  | _ => false

/-- The slash phase of `parse_ref`: split on `/`; one segment keeps the
whole string as image part; with two segments the first is the registry
only when it fullmatches the domain regex; with three or more the first
segment is the registry and the rest are rejoined. -/
def regSplit (replace : List Char) : List Char × List Char :=
  match splitC '/' replace with
  | [] => ([], replace)
  | [_] => ([], replace)
  | [s0, s1] => if matchesDomainC s0 then (s0, s1) else ([], replace)
  | s0 :: r1 :: r2 :: rest => (s0, joinC '/' (r1 :: r2 :: rest))

/-- The colon phase of `parse_ref` on the image part: two pieces give image
and tag; three pieces rejoin the first two as the image (a
registry-with-port folded into the image part produces this); any other
count keeps the image part whole with an empty tag. -/
def tagSplit (im0 : List Char) : List Char × List Char :=
  match splitC ':' im0 with
  | [i, t] => (i, t)
  | [i1, i2, t] => (i1 ++ ':' :: i2, t)
  | _ => (im0, [])

/-- `parse_ref` from `set_fluxhelmrelease_container`, on char lists.
Returns `(registry, image, tag)`.  (The source's `except ValueError` is
dead code: nothing in the body raises it.) -/
def parseRefChars (replace : List Char) : List Char × List Char × List Char :=
  let p := regSplit replace
  let t := tagSplit p.2
  (p.1, t.1, t.2)

/-- `parse_ref` on strings. -/
def parse_ref (replace : String) : String × String × String :=
  let r := parseRefChars replace.data
  (⟨r.1⟩, ⟨r.2.1⟩, ⟨r.2.2⟩)

/-- `format` of an image reference, modelled from the spec (section 4.1):
the source has no single formatting function, the spec defines one as the
inverse of `parse`: join a nonempty registry with `/`, then append `:` and
the tag when the tag is nonempty. -/
def formatRefChars (r : List Char × List Char × List Char) : List Char :=
  (if r.1 = [] then [] else r.1 ++ ['/']) ++
    r.2.1 ++ (if r.2.2 = [] then [] else ':' :: r.2.2)

/-- `format` on strings (spec section 4.1). -/
def format_ref (r : String × String × String) : String :=
  ⟨formatRefChars (r.1.data, r.2.1.data, r.2.2.data)⟩

/-! The manifest-locating functions. -/

/-- The selector taken from the command line: `--namespace`, `--kind`,
`--name`. -/
structure Spec where
  ns : String
  kind : String
  name : String
deriving DecidableEq

/-- The arguments of the `image` subcommand. -/
structure ImageArgs where
  sel : Spec
  container : String
  image : String
deriving DecidableEq

/-- The arguments of the `annotate` subcommand: ordered `(key, value)`
pairs. -/
structure AnnArgs where
  sel : Spec
  notes : List (String × String)
deriving DecidableEq

/-- `match_manifest`: kind compared case-insensitively, namespace defaulting
to `"default"`, then name.  The `try` catches only `KeyError`, so a missing
`kind`/`metadata`/`name` yields `False`, while e.g. `.lower()` on a non-str
kind or `.get` on a non-dict metadata raises. -/
def match_manifest (sel : Spec) (manifest : Val) : Except PyErr Bool :=
  let body : Except PyErr Bool := do
    let kindV ← getItem manifest "kind"
    let kindS ← match kindV with
      | .str s => pure s
      | _ => .error .typeError
    if strLower kindS ≠ strLower sel.kind then
      pure false
    else do
      let md ← getItem manifest "metadata"
      let nsV ← getDefault md "namespace" (.str "default")
      if nsV ≠ .str sel.ns then
        pure false
      else do
        let nameV ← getItem md "name"
        pure (nameV = .str sel.name)
  match body with
  | .error .keyError => .ok false
  | r => r

/-- `manifests(doc)` as the list of manifests a document expands to:
documents whose `kind` ends in `List` expand to their `items`.  The
generator evaluates `doc['kind']` and `doc['items']` before its first yield,
so all its errors are raised up front.  Iterating a non-list `items` only
matters when nonempty: each element of a string or dict iteration is a
string, and the consumer (`find_container`/`match_manifest`) immediately
raises `TypeError` subscripting it; an empty one yields nothing. -/
def manifestsOf (doc : Val) : Except PyErr (List Val) := do
  let kindV ← getItem doc "kind"
  let kindS ← match kindV with
    | .str s => pure s
    | _ => .error (.typeError : PyErr)
  if strEndsWith kindS "List" then do
    let itemsV ← getItem doc "items"
    match itemsV with
    | .list l => pure l.toList
    | .str s => if s.data = [] then pure [] else .error .typeError
    | .map es => if es = .nil then pure [] else .error .typeError
    | .int _ => .error .typeError
  else
    pure [doc]

/-- `podspec`: the pod template spec, nested one level deeper for CronJobs.
Any missing key raises `KeyError` (nothing here catches it). -/
def podspec (manifest : Val) : Except PyErr Val := do
  let kindV ← getItem manifest "kind"
  if kindV = .str "CronJob" then do
    let s ← getItem manifest "spec"
    let jt ← getItem s "jobTemplate"
    let s2 ← getItem jt "spec"
    let t ← getItem s2 "template"
    getItem t "spec"
  else do
    let s ← getItem manifest "spec"
    let t ← getItem s "template"
    getItem t "spec"

/-! The FluxHelmRelease / HelmRelease container resolver. -/

/-- The fixed synthetic container name for a top-level `values.image`
(`FHR_CONTAINER` in the source). -/
def FHR_CONTAINER : String := "chart-image"

/-- Annotation key prefix mapping a container name to a registry dot-path.
(The source calls these `*_ANNOTATION`; that suffix is avoided here.) -/
def REGISTRY_ANN : String := "registry.flux.weave.works/"

/-- Annotation key prefix for a repository dot-path. -/
def REPOSITORY_ANN : String := "repository.flux.weave.works/"

/-- Annotation key prefix for a tag dot-path. -/
def TAG_ANN : String := "tag.flux.weave.works/"

mutual

/-- Python `str(v)` (ignoring quote escaping inside strings, which the
program never observes). -/
def pyStrOf : Val → String
  | .str s => s
  | .int n => toString n
  | .map es => "\x7b" ++ pyReprFields es ++ "\x7d"
  | .list l => "[" ++ pyReprItems l ++ "]"

/-- Python `repr(v)` for values inside containers. -/
def pyRepr : Val → String
  | .str s => "\x27" ++ s ++ "\x27"
  | .int n => toString n
  | .map es => "\x7b" ++ pyReprFields es ++ "\x7d"
  | .list l => "[" ++ pyReprItems l ++ "]"

/-- Comma-joined `repr` of dict entries. -/
def pyReprFields : Fields → String
  | .nil => ""
  | .cons k v .nil => "\x27" ++ k ++ "\x27: " ++ pyRepr v
  | .cons k v rest => "\x27" ++ k ++ "\x27: " ++ pyRepr v ++ ", " ++ pyReprFields rest

/-- Comma-joined `repr` of list elements. -/
def pyReprItems : Items → String
  | .nil => ""
  | .cons v .nil => pyRepr v
  | .cons v rest => pyRepr v ++ ", " ++ pyReprItems rest

end

/-- The recursive dict merge `update(d, u)` used by
`container_mappings_from_annotations`: mapping-valued entries of `u` are
merged recursively into `d.get(k, {})` (raising `AttributeError` when `d`
is not a dict), other entries overwrite. -/
def merge_update : Val → Fields → Except PyErr Val
  | d, .nil => .ok d
  | d, .cons k v rest => do
      let d1 ← match v with
        | .map vm => do
            let sub ← getDefault d k (.map .nil)
            let sub1 ← merge_update sub vm
            setItem d k sub1
        | _ => setItem d k v
      merge_update d1 rest

/-- `container_mappings_from_annotations`: scan
`manifest['metadata']['annotations']` for the three prefixes, merging
`{name: {field: value}}` per matching key.  The `try` catches a `KeyError`
from the two lookups (yielding no mappings); errors inside the loop are
`TypeError`s and propagate.  The registry branch lacks the `continue` of
the other two, which is unobservable since the prefixes are mutually
exclusive. -/
def container_mappings_from_annotations (manifest : Val) : Except PyErr Fields :=
  let ann : Except PyErr Val := do
    let md ← getItem manifest "metadata"
    getItem md "annotations"
  match ann with
  | .error .keyError => .ok .nil
  | .error e => .error e
  | .ok (.map items) => go items .nil
  | .ok _ => .error .typeError
where
  /-- One pass over the annotation entries, accumulating the merged
  mappings. -/
  go : Fields → Fields → Except PyErr Fields
  | .nil, acc => .ok acc
  | .cons k v rest, acc => do
      let acc1 ←
        if strStartsWith k REGISTRY_ANN then do
          let name : String := ⟨k.data.drop REGISTRY_ANN.data.length⟩
          let m ← merge_update (.map acc) (.cons name (mapOf [("registry", v)]) .nil)
          match m with
          | .map es => pure es
          | _ => .error .typeError
        else if strStartsWith k REPOSITORY_ANN then do
          let name : String := ⟨k.data.drop REPOSITORY_ANN.data.length⟩
          let m ← merge_update (.map acc) (.cons name (mapOf [("repository", v)]) .nil)
          match m with
          | .map es => pure es
          | _ => .error .typeError
        else if strStartsWith k TAG_ANN then do
          let name : String := ⟨k.data.drop TAG_ANN.data.length⟩
          let m ← merge_update (.map acc) (.cons name (mapOf [("tag", v)]) .nil)
          match m with
          | .map es => pure es
          | _ => .error .typeError
        else
          pure acc
      go rest acc1

/-- The inner `get_path(d, path)` of `fluxhelmrelease_containers`, after
splitting the dot-path (the source splits one segment per recursive call;
the pieces of a split contain no dot, so walking the full split is the
same).  A `KeyError` at any level is caught and yields `None`; subscripting
a non-dict raises `TypeError`, which nothing catches. -/
def get_path_go : Val → List String → Except PyErr (Option Val)
  | _, [] => .ok none
  | d, [k] =>
      match d with
      | .map es => .ok (flookup es k)
      | _ => .error .typeError
  | d, k :: k2 :: rest =>
      match d with
      | .map es =>
          match flookup es k with
          | none => .ok none
          | some d2 => get_path_go d2 (k2 :: rest)
      | _ => .error .typeError

/-- `get_path` on a string dot-path. -/
def get_path (d : Val) (path : String) : Except PyErr (Option Val) :=
  get_path_go d (splitStr '.' path)

/-- The inner `get_image(values)`: start from `values['image']`, descending
into it when it is a mapping with a `repository` key; prefix a nonempty
sibling `registry` with `/` and append a nonempty sibling `tag` with `:`
(`%s` formatting stringifies non-str operands). -/
def get_image (values : Val) : Except PyErr Val := do
  let image0 ← getItem values "image"
  let vi : Val × Val :=
    match image0 with
    | .map im =>
        if fcontains im "repository" then (.map im, (flookup im "repository").getD (.str ""))
        else (values, image0)
    | _ => (values, image0)
  let vals := vi.1
  let hasReg ← pyContains vals "registry"
  let step1 : Val ←
    if hasReg then do
      let r ← getItem vals "registry"
      if r ≠ .str "" then pure (.str (pyStrOf r ++ "/" ++ pyStrOf vi.2))
      else pure vi.2
    else pure vi.2
  let hasTag ← pyContains vals "tag"
  if hasTag then do
    let t ← getItem vals "tag"
    if t ≠ .str "" then pure (.str (pyStrOf step1 ++ ":" ++ pyStrOf t))
    else pure step1
  else pure step1

/-- The inner `get_image_for_mapping(values, mapping)`: `None` without a
`repository` path or when the path does not resolve to a nonempty string;
when a `tag` path is present it must also resolve to a nonempty string
(else `None`), and the image is `repository:tag`.  (The source reads the
paths from the closed-over loop variable `v`, which at the call site is the
same dict as `mapping`.)  A non-str path raises `TypeError` inside
`get_path`'s string operations. -/
def get_image_for_mapping (values mapping : Val) : Except PyErr (Option String) := do
  let hasRepo ← pyContains mapping "repository"
  if !hasRepo then pure none
  else do
    let rpathV ← getItem mapping "repository"
    let rpath ← match rpathV with
      | .str p => pure p
      | _ => .error (.typeError : PyErr)
    let repo? ← get_path values rpath
    match repo? with
    | some (.str repository) =>
        if repository = "" then pure none
        else do
          let hasTag ← pyContains mapping "tag"
          if hasTag then do
            let tpathV ← getItem mapping "tag"
            let tpath ← match tpathV with
              | .str p => pure p
              | _ => .error (.typeError : PyErr)
            let tag? ← get_path values tpath
            match tag? with
            | some (.str tag) =>
                if tag = "" then pure none
                else pure (some (repository ++ ":" ++ tag))
            | _ => pure none
          else pure (some repository)
    | _ => pure none

/-- The name entry of a constructed container dict (always present on the
dicts `fluxhelmrelease_containers` builds). -/
def nameOf (c : Val) : Option Val :=
  match c with
  | .map es => flookup es "name"
  | _ => none

/-- The inner `replace(d, value)`: overwrite in place the first container
with the same name, else append. -/
def replaceByName : List Val → Val → List Val
  | [], value => [value]
  | c :: rest, value =>
      if nameOf c = nameOf value then value :: rest
      else c :: replaceByName rest value

/-- The dict entries of `values` whose value is a mapping (the generator
`mappings(values)`), for a dict `values`. -/
def fieldsMappings : Fields → List (String × Fields)
  | .nil => []
  | .cons k v rest =>
      match v with
      | .map es => (k, es) :: fieldsMappings rest
      | _ => fieldsMappings rest

/-- `mappings(values)` including Python's behaviour on non-dicts: iterating
a nonempty string or list and subscripting with the element raises
`TypeError`; empty ones yield nothing. -/
def valMappings (v : Val) : Except PyErr (List (String × Fields)) :=
  match v with
  | .map es => .ok (fieldsMappings es)
  | .str s => if s.data = [] then .ok [] else .error .typeError
  | .list l => if l = .nil then .ok [] else .error .typeError
  | .int _ => .error .typeError

/-- `fluxhelmrelease_containers`: tier 1 a synthetic `chart-image` container
when `values` has an `image` key; tier 2 one container per mapping-valued
entry of `values` having an `image` key; tier 3 one container per
annotation mapping whose paths resolve, replacing same-named entries. -/
def fluxhelmrelease_containers (manifest : Val) : Except PyErr (List Val) := do
  let s ← getItem manifest "spec"
  let valuesV ← getItem s "values"
  let hasImage ← pyContains valuesV "image"
  let cs0 : List Val ←
    if hasImage then do
      let img ← get_image valuesV
      pure [mapOf [("name", .str FHR_CONTAINER), ("image", img)]]
    else pure []
  let ms ← valMappings valuesV
  let cs1 ← tier2 ms cs0
  let cm ← container_mappings_from_annotations manifest
  tier3 valuesV cm cs1
where
  /-- The tier-2 loop: append a container for each nested mapping with an
  `image` key. -/
  tier2 : List (String × Fields) → List Val → Except PyErr (List Val)
  | [], acc => .ok acc
  | (k, v) :: rest, acc => do
      if fcontains v "image" then do
        let img ← get_image (.map v)
        tier2 rest (acc ++ [mapOf [("name", .str k), ("image", img)]])
      else tier2 rest acc
  /-- The tier-3 loop: `replace` a container for each annotation mapping
  whose image resolves to a truthy (nonempty) string. -/
  tier3 (valuesV : Val) : Fields → List Val → Except PyErr (List Val)
  | .nil, acc => .ok acc
  | .cons k v rest, acc => do
      let img? ← get_image_for_mapping valuesV v
      match img? with
      | some img =>
          if img = "" then tier3 valuesV rest acc
          else
            let c := mapOf [("name", .str k), ("image", .str img)]
            tier3 valuesV rest (replaceByName acc c)
      | none => tier3 valuesV rest acc

/-- `containers(manifest)`: Helm kinds resolve through the values tree,
everything else through the pod spec's `containers` + `initContainers`
(defaulting to empty lists; concatenating non-lists raises). -/
def containersOf (manifest : Val) : Except PyErr (List Val) := do
  let kindV ← getItem manifest "kind"
  if kindV = .str "FluxHelmRelease" ∨ kindV = .str "HelmRelease" then
    fluxhelmrelease_containers manifest
  else do
    let s ← podspec manifest
    let cs ← getDefault s "containers" (.list .nil)
    let ics ← getDefault s "initContainers" (.list .nil)
    match cs, ics with
    | .list a, .list b => pure (a.toList ++ b.toList)
    | _, _ => .error .typeError

/-- `find_container`: `None` unless the manifest matches the selector and
one of its containers carries the requested name (`c['name']` raising on a
nameless container dict). -/
def find_container (args : ImageArgs) (manifest : Val) : Except PyErr (Option Val) := do
  let mm ← match_manifest args.sel manifest
  if !mm then pure none
  else do
    let cs ← containersOf manifest
    go cs
where
  /-- The scan for the first container named `args.container`. -/
  go : List Val → Except PyErr (Option Val)
  | [] => .ok none
  | c :: rest => do
      let n ← getItem c "name"
      if n = .str args.container then pure (some c) else go rest

/-! The write-back side of `set_fluxhelmrelease_container`. -/

/-- The inner `set_path(d, path, value)` after splitting the dot-path.
Walking the leading keys: a missing key returns `False` with no mutation
(Python `k not in d` on a non-dict follows `in` semantics); descending into
a non-dict raises.  At the final key, `d[keys[-1]]` is read unguarded — a
missing final key raises `KeyError` — and a non-str current value returns
`False`; otherwise the value is overwritten and the result is `True`.
Returns the flag and the (possibly rewritten) tree. -/
def set_path_go : Val → List String → String → Except PyErr (Bool × Val)
  | _, [], _ => .error .typeError
  | d, [k], value =>
      match d with
      | .map es =>
          match flookup es k with
          | none => .error .keyError
          | some (.str _) => .ok (true, .map (finsert es k (.str value)))
          | some _ => .ok (false, d)
      | _ => .error .typeError
  | d, k :: k2 :: rest, value => do
      let inD ← pyContains d k
      if !inD then pure (false, d)
      else do
        let sub ← getItem d k
        let r ← set_path_go sub (k2 :: rest) value
        match d with
        | .map es => pure (r.1, .map (finsert es k r.2))
        | _ => .error .typeError

/-- `set_path` on a string dot-path. -/
def set_path (d : Val) (path : String) (value : String) : Except PyErr (Bool × Val) :=
  set_path_go d (splitStr '.' path) value

/-- `':'.join(filter(None, [a, b]))`: drop empty pieces, then join. -/
def joinColonFiltered (a b : String) : String :=
  if a = "" then b else if b = "" then a else a ++ ":" ++ b

/-- `'/'.join(filter(None, [a, b]))`. -/
def joinSlashFiltered (a b : String) : String :=
  if a = "" then b else if b = "" then a else a ++ "/" ++ b

/-- The four write branches of the inner `set_image(values)`, on the target
dict (either `values` itself or its `image` sub-mapping) with the matching
image key.  Which sibling keys exist decides how the parsed reference is
folded back. -/
def set_image_branches (es : Fields) (imageKey : String)
    (reg im tag : String) (replace : String) : Fields :=
  if fcontains es "registry" ∧ fcontains es "tag" then
    finsert (finsert (finsert es "registry" (.str reg)) imageKey (.str im)) "tag" (.str tag)
  else if fcontains es "registry" then
    finsert (finsert es "registry" (.str reg)) imageKey (.str (joinColonFiltered im tag))
  else if fcontains es "tag" then
    finsert (finsert es imageKey (.str (joinSlashFiltered reg im))) "tag" (.str tag)
  else
    finsert es imageKey (.str replace)

/-- The inner `set_image(values)`: descend into a mapping-valued
`values['image']` containing `repository` (writing back through the outer
`image` key), else write into `values` itself under `image`. -/
def set_image (values : Val) (replace : String) : Except PyErr Val := do
  let image0 ← getItem values "image"
  let r := parse_ref replace
  match image0 with
  | .map im0 =>
      if fcontains im0 "repository" then
        setItem values "image" (.map (set_image_branches im0 "repository" r.1 r.2.1 r.2.2 replace))
      else
        match values with
        | .map es => .ok (.map (set_image_branches es "image" r.1 r.2.1 r.2.2 replace))
        | _ => .error .typeError
  | _ =>
      match values with
      | .map es => .ok (.map (set_image_branches es "image" r.1 r.2.1 r.2.2 replace))
      | _ => .error .typeError

/-- Fetch a dot-path from an annotation mapping; the path must be a string
for `set_path`'s string operations to work. -/
def mappingPath (mapping : Val) (key : String) : Except PyErr String := do
  let p ← getItem mapping key
  match p with
  | .str s => pure s
  | _ => .error .typeError

/-- The inner `set_image_for_mapping(values, mapping)`: write the parsed
reference through the mapping's dot-paths, folding registry/tag into the
repository field according to which paths the mapping has.  Every
`set_path` result flag is discarded — failed writes are silently
skipped. -/
def set_image_for_mapping (values mapping : Val) (replace : String) : Except PyErr Val := do
  let r := parse_ref replace
  let hasReg ← pyContains mapping "registry"
  let hasTag ← pyContains mapping "tag"
  if hasReg ∧ hasTag then do
    let rp ← mappingPath mapping "registry"
    let s1 ← set_path values rp r.1
    let pp ← mappingPath mapping "repository"
    let s2 ← set_path s1.2 pp r.2.1
    let tp ← mappingPath mapping "tag"
    let s3 ← set_path s2.2 tp r.2.2
    pure s3.2
  else if hasReg then do
    let rp ← mappingPath mapping "registry"
    let s1 ← set_path values rp r.1
    let pp ← mappingPath mapping "repository"
    let s2 ← set_path s1.2 pp (r.2.1 ++ ":" ++ r.2.2)
    pure s2.2
  else if hasTag then do
    let pp ← mappingPath mapping "repository"
    let s1 ← set_path values pp r.2.1
    let tp ← mappingPath mapping "tag"
    let s2 ← set_path s1.2 tp r.2.2
    pure s2.2
  else do
    let pp ← mappingPath mapping "repository"
    let s1 ← set_path values pp replace
    pure s1.2

/-- Store a rewritten values tree back at `manifest['spec']['values']`
(in Python the tree is mutated in place through that alias). -/
def sfhc_with_values (manifest values1 : Val) : Except PyErr Val := do
  let sV ← getItem manifest "spec"
  let s1 ← setItem sV "values" values1
  setItem manifest "spec" s1

/-- The annotation-mappings loop of `set_fluxhelmrelease_container`: the
first mapping whose name matches the container and that has a `repository`
path is written through, and the function returns — regardless of whether
any of its `set_path` writes applied. -/
def sfhc_ann_loop (manifest valuesV : Val) (cname replace : String) :
    Fields → Except PyErr (Option Val)
  | .nil => .ok none
  | .cons k v rest => do
      let hasRepo ← pyContains v "repository"
      if k = cname ∧ hasRepo then do
        let values1 ← set_image_for_mapping valuesV v replace
        let m1 ← sfhc_with_values manifest values1
        pure (some m1)
      else sfhc_ann_loop manifest valuesV cname replace rest

/-- The nested-mappings loop of `set_fluxhelmrelease_container`; falling off
the end raises `NotFound`. -/
def sfhc_nested_loop (manifest valuesV : Val) (cname replace : String) :
    List (String × Fields) → Except PyErr Val
  | [] => .error .notFound
  | (k, v) :: rest =>
      if k = cname ∧ fcontains v "image" then do
        let v1 ← set_image (.map v) replace
        let values1 ← setItem valuesV k v1
        sfhc_with_values manifest values1
      else sfhc_nested_loop manifest valuesV cname replace rest

/-- `set_fluxhelmrelease_container`: the synthetic `chart-image` container
backed by a top-level `values.image`; else the first matching annotation
mapping with a `repository` path; else the first matching nested mapping
with an `image` key; else `NotFound`. -/
def set_fluxhelmrelease_container (manifest : Val) (cname replace : String) :
    Except PyErr Val := do
  let sV ← getItem manifest "spec"
  let valuesV ← getItem sV "values"
  let hasImage ← pyContains valuesV "image"
  if cname = FHR_CONTAINER ∧ hasImage then do
    let values1 ← set_image valuesV replace
    sfhc_with_values manifest values1
  else do
    let cm ← container_mappings_from_annotations manifest
    let r ← sfhc_ann_loop manifest valuesV cname replace cm
    match r with
    | some m1 => pure m1
    | none => do
        let ms ← valMappings valuesV
        sfhc_nested_loop manifest valuesV cname replace ms

/-! The standard-workload write-back (`container['image'] = image` on the
container found inside the pod spec). -/

/-- Set the image of the first container with the given name in a container
list; `none` when no container there carries the name. -/
def setFirstNamedI : Items → String → String → Except PyErr (Option Items)
  | .nil, _, _ => .ok none
  | .cons c rest, cname, img => do
      let n ← getItem c "name"
      if n = .str cname then do
        let c1 ← setItem c "image" (.str img)
        pure (some (.cons c1 rest))
      else do
        let r ← setFirstNamedI rest cname img
        match r with
        | some rest1 => pure (some (.cons c rest1))
        | none => pure none

/-- Rewrite the value at a key path inside nested dicts. -/
def modifyValAt : Val → List String → (Val → Except PyErr Val) → Except PyErr Val
  | v, [], f => f v
  | v, k :: rest, f => do
      let sub ← getItem v k
      let sub1 ← modifyValAt sub rest f
      setItem v k sub1

/-- Update the image inside a pod spec's `containers` list, falling back to
`initContainers`.  When neither list has the container the tree is returned
unchanged (in Python the assignment would land on a dict that is not part
of this manifest; unreachable after `find_container` succeeded). -/
def update_podspec_containers (s : Val) (cname img : String) : Except PyErr Val := do
  let cs ← getDefault s "containers" (.list .nil)
  match cs with
  | .list a => do
      let r ← setFirstNamedI a cname img
      match r with
      | some a1 => setItem s "containers" (.list a1)
      | none => do
          let ics ← getDefault s "initContainers" (.list .nil)
          match ics with
          | .list b => do
              let r2 ← setFirstNamedI b cname img
              match r2 with
              | some b1 => setItem s "initContainers" (.list b1)
              | none => pure s
          | _ => pure s
  | _ => pure s

/-- `container['image'] = image` for a container located by name inside the
manifest's pod spec (the container dict `set_container_image` receives is
the first one of that name in `containers ++ initContainers`). -/
def update_pod_container_image (manifest : Val) (cname img : String) :
    Except PyErr Val := do
  let kindV ← getItem manifest "kind"
  let path := if kindV = .str "CronJob" then
      ["spec", "jobTemplate", "spec", "template", "spec"]
    else ["spec", "template", "spec"]
  modifyValAt manifest path (fun s => update_podspec_containers s cname img)

/-- `set_container_image`: Helm kinds write through the values tree,
everything else directly on the container. -/
def set_container_image (manifest : Val) (cname img : String) : Except PyErr Val := do
  let kindV ← getItem manifest "kind"
  if kindV = .str "FluxHelmRelease" ∨ kindV = .str "HelmRelease" then
    set_fluxhelmrelease_container manifest cname img
  else
    update_pod_container_image manifest cname img

/-! The two stream operations. -/

/-- Scan the manifests of one document: the index of the first manifest
holding the requested container, with that manifest rewritten. -/
def process_image_manifests (args : ImageArgs) : List Val → Except PyErr (Option (Nat × Val))
  | [] => .ok none
  | m :: rest => do
      let c? ← find_container args m
      match c? with
      | some _ => do
          let m1 ← set_container_image m args.container args.image
          pure (some (0, m1))
      | none => do
          let r ← process_image_manifests args rest
          match r with
          | some (i, m1) => pure (some (i + 1, m1))
          | none => pure none

/-- Replace the element at an index of a list value. -/
def itemsSet : Items → Nat → Val → Items
  | .nil, _, _ => .nil
  | .cons _ rest, 0, v => .cons v rest
  | .cons c rest, Nat.succ n, v => .cons c (itemsSet rest n v)

/-- Put a rewritten manifest back into its document: for a `*List` document
the mutated manifest is an element of `items`; otherwise the manifest is
the document. -/
def rebuild_doc (doc : Val) (r : Option (Nat × Val)) : Except PyErr (Option Val) :=
  match r with
  | none => .ok none
  | some (i, m1) => do
      let kindV ← getItem doc "kind"
      let kindS ← match kindV with
        | .str s => pure s
        | _ => .error (.typeError : PyErr)
      if strEndsWith kindS "List" then do
        let itemsV ← getItem doc "items"
        match itemsV with
        | .list l => do
            let d1 ← setItem doc "items" (.list (itemsSet l i m1))
            pure (some d1)
        | _ => .error .typeError
      else pure (some m1)

/-- One document of the `update_image` loop: `some` rewritten document when
a manifest in it held the container, `none` to keep scanning. -/
def process_image_doc (args : ImageArgs) (doc : Val) : Except PyErr (Option Val) := do
  let ms ← manifestsOf doc
  let r ← process_image_manifests args ms
  rebuild_doc doc r

/-- `apply` one `(key, value)` note: an empty value deletes the key
(tolerating its absence), anything else sets it. -/
def apply_note (notes : Fields) (kv : String × String) : Fields :=
  if kv.2 = "" then fdelete notes kv.1 else finsert notes kv.1 (.str kv.2)

/-- The notes loop of `update_annotations`, in order. -/
def apply_notes (notes : Fields) : List (String × String) → Fields
  | [] => notes
  | kv :: rest => apply_notes (apply_note notes kv) rest

/-- The body of `update_annotations` for one matched manifest:
`ensure(m, 'metadata', 'annotations')` (creating empty dicts for missing
keys, raising on non-dict intermediates), apply the notes, then drop the
`annotations` key entirely when what remains has length zero. -/
def update_one_annotations (args : AnnArgs) (m : Val) : Except PyErr Val := do
  let mdm ← (match getItem m "metadata" with
    | .ok v => .ok (v, m)
    | .error .keyError => do
        let m1 ← setItem m "metadata" (.map .nil)
        pure ((Val.map .nil), m1)
    | .error e => .error e)
  let md := mdm.1
  let m1 := mdm.2
  let annmd ← (match getItem md "annotations" with
    | .ok v => .ok (v, md)
    | .error .keyError => do
        let md1 ← setItem md "annotations" (.map .nil)
        pure ((Val.map .nil), md1)
    | .error e => .error e)
  let ann := annmd.1
  let md1 := annmd.2
  let ann1 ← (match ann with
    | .map notes => .ok (Val.map (apply_notes notes args.notes))
    | other =>
        match args.notes with
        | [] => .ok other
        | _ :: _ => .error .typeError)
  let n ← pyLen ann1
  let md2 ← setItem md1 "annotations" ann1
  let md3 ← (if n = 0 then
      match md2 with
      | .map mes => .ok (Val.map (fdelete mes "annotations"))
      | _ => .error .typeError
    else .ok md2)
  setItem m1 "metadata" md3

/-- Scan the manifests of one document for `update_annotations`. -/
def process_ann_manifests (args : AnnArgs) : List Val → Except PyErr (Option (Nat × Val))
  | [] => .ok none
  | m :: rest => do
      let mm ← match_manifest args.sel m
      if mm then do
        let m1 ← update_one_annotations args m
        pure (some (0, m1))
      else do
        let r ← process_ann_manifests args rest
        match r with
        | some (i, m1) => pure (some (i + 1, m1))
        | none => pure none

/-- One document of the `update_annotations` loop. -/
def process_ann_doc (args : AnnArgs) (doc : Val) : Except PyErr (Option Val) := do
  let ms ← manifestsOf doc
  let r ← process_ann_manifests args ms
  rebuild_doc doc r

/-- The shared document-stream loop of `update_image` and
`update_annotations`: while nothing was found, each document is offered to
the per-document action; after a hit every further document passes through
untouched.  The generator yields each document before moving on, so on an
exception the documents already emitted are exactly those before the
failing one; `NotFound` is raised after the final document when nothing
matched.  The result is the emitted documents and the raised exception, if
any. -/
def stream_update (f : Val → Except PyErr (Option Val)) :
    Bool → List Val → List Val × Option PyErr
  | found, [] => ([], if found then none else some .notFound)
  | true, d :: ds =>
      let r := stream_update f true ds
      (d :: r.1, r.2)
  | false, d :: ds =>
      match f d with
      | .error e => ([], some e)
      | .ok none =>
          let r := stream_update f false ds
          (d :: r.1, r.2)
      | .ok (some d1) =>
          let r := stream_update f true ds
          (d1 :: r.1, r.2)

/-- `update_image(args, docs)`: the emitted stream and the exception, if
any. -/
def update_image (args : ImageArgs) (docs : List Val) : List Val × Option PyErr :=
  stream_update (process_image_doc args) false docs

/-- `update_annotations(spec, docs)`. -/
def update_annotations (args : AnnArgs) (docs : List Val) : List Val × Option PyErr :=
  stream_update (process_ann_doc args) false docs

/-! Predicates used to state the claims. -/

/-- Well-formedness of an image string for the round-trip property: no
slash- or colon-piece of it is empty (ruling out strings like `/a/b` or
`img:`, which are not image references). -/
def noEmptyPiecesC (s : List Char) : Bool :=
  (splitC '/' s).all (fun p => !p.isEmpty) && (splitC ':' s).all (fun p => !p.isEmpty)

/-- `noEmptyPiecesC` on strings. -/
def noEmptyPieces (s : String) : Bool := noEmptyPiecesC s.data

/-- The keys of a dict, in order (Python dicts never repeat a key, so the
claims about dict edits assume these are nodup). -/
def fkeys : Fields → List String
  | .nil => []
  | .cons k _ rest => k :: fkeys rest

/-- The dot-path walks through existing mappings but its final key is
absent from the final (mapping) target. -/
def finalMissing : Val → List String → Bool
  | .map es, [k] => !(fcontains es k)
  | .map es, k :: k2 :: rest =>
      match flookup es k with
      | some d2 => finalMissing d2 (k2 :: rest)
      | none => false
  | _, _ => false

/-! Concrete documents used to instantiate the claims. -/

/-- A pod-shaped manifest with the generic `spec.template.spec.containers`
layout the program reads for every non-CronJob kind. -/
def mkpod (nm img : String) : Val := mapOf [
  ("kind", .str "Pod"),
  ("metadata", mapOf [("name", .str nm), ("namespace", .str "ns1")]),
  ("spec", mapOf [("template", mapOf [("spec", mapOf [
    ("containers", listOf [mapOf [("name", .str "app"), ("image", .str img)]])])])])]

/-- A `PodList` of three pods. -/
def podlistDoc : Val := mapOf [
  ("kind", .str "PodList"),
  ("items", listOf [mkpod "p1" "i1", mkpod "p2" "i2", mkpod "p3" "i3"])]

/-- Target the second pod's container. -/
def podlistArgs : ImageArgs := ⟨⟨"ns1", "pod", "p2"⟩, "app", "newimg"⟩

/-- A deployment-shaped manifest with one named container. -/
def mkdep (cname img : String) : Val := mapOf [
  ("kind", .str "Deployment"),
  ("metadata", mapOf [("name", .str "app"), ("namespace", .str "ns1")]),
  ("spec", mapOf [("template", mapOf [("spec", mapOf [
    ("containers", listOf [mapOf [("name", .str cname), ("image", .str img)]])])])])]

/-- Selector matching both deployments, requesting container `web`. -/
def twoDepArgs : ImageArgs := ⟨⟨"ns1", "deployment", "app"⟩, "web", "new"⟩

/-- A matched Deployment without `spec.template`. -/
def badDep : Val := mapOf [
  ("kind", .str "Deployment"),
  ("metadata", mapOf [("name", .str "app")]),
  ("spec", mapOf [("replicas", .int 1)])]

/-- Selector matching `badDep`. -/
def badDepArgs : ImageArgs := ⟨⟨"default", "deployment", "app"⟩, "web", "new"⟩

/-- A matched CronJob without `spec.jobTemplate`. -/
def badCron : Val := mapOf [
  ("kind", .str "CronJob"),
  ("metadata", mapOf [("name", .str "cj")]),
  ("spec", mapOf [("schedule", .str "* * * * *")])]

/-- Selector matching `badCron`. -/
def badCronArgs : ImageArgs := ⟨⟨"default", "cronjob", "cj"⟩, "web", "new"⟩

/-- The C4 HelmRelease: `values.image` a mapping with repository and tag,
plus sibling keys that must survive the write. -/
def helmC4 (kind : String) : Val := mapOf [
  ("kind", .str kind),
  ("metadata", mapOf [("name", .str "rel"), ("namespace", .str "default")]),
  ("spec", mapOf [("values", mapOf [
    ("image", mapOf [("repository", .str "foo"), ("tag", .str "1.0"),
      ("pullPolicy", .str "Always")]),
    ("replicas", .int 3)])])]

/-- `helmC4` after writing back `bar:2.0`. -/
def helmC4After (kind : String) : Val := mapOf [
  ("kind", .str kind),
  ("metadata", mapOf [("name", .str "rel"), ("namespace", .str "default")]),
  ("spec", mapOf [("values", mapOf [
    ("image", mapOf [("repository", .str "bar"), ("tag", .str "2.0"),
      ("pullPolicy", .str "Always")]),
    ("replicas", .int 3)])])]

/-- Write `bar:2.0` into the `chart-image` container of `rel`. -/
def helmC4Args : ImageArgs := ⟨⟨"default", "helmrelease", "rel"⟩, "chart-image", "bar:2.0"⟩

/-- The C5 values tree `{web: {image: "x", version: "y"}}`. -/
def valuesC5 : Val := mapOf [("web", mapOf [("image", .str "x"), ("version", .str "y")])]

/-- The C5 HelmRelease with the spec's literal annotation paths
`values.web.image` / `values.web.version`. -/
def helmC5Lit : Val := mapOf [
  ("kind", .str "HelmRelease"),
  ("metadata", mapOf [("name", .str "rel"), ("namespace", .str "default"),
    ("annotations", mapOf [
      ("repository.flux.weave.works/web", .str "values.web.image"),
      ("tag.flux.weave.works/web", .str "values.web.version")])]),
  ("spec", mapOf [("values", valuesC5)])]

/-- The C5 HelmRelease with paths relative to `spec.values`:
`web.image` / `web.version`. -/
def helmC5 : Val := mapOf [
  ("kind", .str "HelmRelease"),
  ("metadata", mapOf [("name", .str "rel"), ("namespace", .str "default"),
    ("annotations", mapOf [
      ("repository.flux.weave.works/web", .str "web.image"),
      ("tag.flux.weave.works/web", .str "web.version")])]),
  ("spec", mapOf [("values", valuesC5)])]

/-- Write `z:9` into container `web` of `rel`. -/
def helmC5Args : ImageArgs := ⟨⟨"default", "helmrelease", "rel"⟩, "web", "z:9"⟩

/-- `helmC5` after the write-back of `z:9`. -/
def helmC5After : Val := mapOf [
  ("kind", .str "HelmRelease"),
  ("metadata", mapOf [("name", .str "rel"), ("namespace", .str "default"),
    ("annotations", mapOf [
      ("repository.flux.weave.works/web", .str "web.image"),
      ("tag.flux.weave.works/web", .str "web.version")])]),
  ("spec", mapOf [("values", mapOf [("web", mapOf [
    ("image", .str "z"), ("version", .str "9")])])])]

/-- The C6 HelmRelease: the annotation mapping for `web` names a repository
path whose first key is absent from the values tree, while a tier-2 nested
candidate `web` (with an `image` key) exists. -/
def helmC6 : Val := mapOf [
  ("kind", .str "HelmRelease"),
  ("metadata", mapOf [("name", .str "rel"), ("namespace", .str "default"),
    ("annotations", mapOf [("repository.flux.weave.works/web", .str "missing.path")])]),
  ("spec", mapOf [("values", mapOf [("web", mapOf [("image", .str "old")])])])]

/-- Write `new:1` into container `web` of `rel`. -/
def helmC6Args : ImageArgs := ⟨⟨"default", "helmrelease", "rel"⟩, "web", "new:1"⟩

/-- The C10 HelmRelease: the annotation mapping for `web` names repository
path `web.rep`: the intermediate `web` exists as a mapping but the final
key `rep` is absent. -/
def helmC10 : Val := mapOf [
  ("kind", .str "HelmRelease"),
  ("metadata", mapOf [("name", .str "rel"), ("namespace", .str "default"),
    ("annotations", mapOf [("repository.flux.weave.works/web", .str "web.rep")])]),
  ("spec", mapOf [("values", mapOf [("web", mapOf [("image", .str "old")])])])]

/-- Write `new:1` into container `web` of `rel`. -/
def helmC10Args : ImageArgs := ⟨⟨"default", "helmrelease", "rel"⟩, "web", "new:1"⟩

/-- A manifest whose only annotation is `key`. -/
def annManifest : Val := mapOf [
  ("kind", .str "Deployment"),
  ("metadata", mapOf [("name", .str "app"), ("annotations", mapOf [("key", .str "v")])])]

/-- `annotate` arguments with the single pair `key=""`. -/
def annArgsC8 : AnnArgs := ⟨⟨"default", "deployment", "app"⟩, [("key", "")]⟩

/-! Split/join lemmas for the image-reference parser. -/

theorem splitC_ne_nil (c : Char) (s : List Char) : splitC c s ≠ [] := by
  induction s with
  | nil => simp [splitC]
  | cons a as ih =>
      unfold splitC
      by_cases h : a = c
      · simp [h]
      · simp only [if_neg h]
        cases hs : splitC c as with
        | nil => simp
        | cons p ps => simp

theorem join_split (c : Char) (s : List Char) : joinC c (splitC c s) = s := by
  induction s with
  | nil => rfl
  | cons a as ih =>
      unfold splitC
      by_cases h : a = c
      · simp only [if_pos h]
        cases hs : splitC c as with
        | nil => exact absurd hs (splitC_ne_nil c as)
        | cons p ps =>
            rw [hs] at ih
            subst h
            show [] ++ a :: joinC a (p :: ps) = a :: as
            simp [ih]
      · simp only [if_neg h]
        cases hs : splitC c as with
        | nil => exact absurd hs (splitC_ne_nil c as)
        | cons p ps =>
            rw [hs] at ih
            cases ps with
            | nil =>
                show a :: p = a :: as
                simp only [joinC] at ih
                rw [ih]
            | cons q t =>
                show (a :: p) ++ c :: joinC c (q :: t) = a :: as
                simp only [joinC] at ih
                simp [ih]

theorem splitC_getLast?_of_getLast (c : Char) (s : List Char)
    (h : s.getLast? = some c) : (splitC c s).getLast? = some [] := by
  induction s with
  | nil => simp at h
  | cons a as ih =>
      cases as with
      | nil =>
          simp only [List.getLast?_singleton, Option.some.injEq] at h
          subst h
          simp [splitC]
      | cons b bs =>
          have h2 : (b :: bs).getLast? = some c := by
            rwa [List.getLast?_cons_cons] at h
          have ih2 := ih h2
          unfold splitC
          by_cases hac : a = c
          · simp only [if_pos hac]
            cases hs : splitC c (b :: bs) with
            | nil => exact absurd hs (splitC_ne_nil _ _)
            | cons p ps =>
                rw [hs] at ih2
                rw [List.getLast?_cons_cons]
                exact ih2
          · simp only [if_neg hac]
            cases hs : splitC c (b :: bs) with
            | nil => exact absurd hs (splitC_ne_nil _ _)
            | cons p ps =>
                rw [hs] at ih2
                cases ps with
                | nil =>
                    simp only [List.getLast?_singleton, Option.some.injEq] at ih2
                    subst ih2
                    have hj := join_split c (b :: bs)
                    rw [hs] at hj
                    simp [joinC] at hj
                | cons q t =>
                    rw [List.getLast?_cons_cons] at ih2 ⊢
                    exact ih2

theorem splitC_getLast?_ne (c a : Char) (s : List Char)
    (h : s.getLast? = some a) (hac : a ≠ c) :
    (splitC c s).getLast? ≠ some [] := by
  induction s with
  | nil => simp at h
  | cons x as ih =>
      cases as with
      | nil =>
          simp only [List.getLast?_singleton, Option.some.injEq] at h
          subst h
          unfold splitC
          rw [if_neg hac]
          simp [splitC]
      | cons b bs =>
          have h2 : (b :: bs).getLast? = some a := by
            rwa [List.getLast?_cons_cons] at h
          have ih2 := ih h2
          unfold splitC
          by_cases hxc : x = c
          · simp only [if_pos hxc]
            cases hs : splitC c (b :: bs) with
            | nil => exact absurd hs (splitC_ne_nil _ _)
            | cons p ps =>
                rw [hs] at ih2
                rw [List.getLast?_cons_cons]
                exact ih2
          · simp only [if_neg hxc]
            cases hs : splitC c (b :: bs) with
            | nil => exact absurd hs (splitC_ne_nil _ _)
            | cons p ps =>
                rw [hs] at ih2
                cases ps with
                | nil => simp
                | cons q t =>
                    rw [List.getLast?_cons_cons] at ih2 ⊢
                    exact ih2

theorem tagSplit_recompose (im : List Char)
    (h : (splitC ':' im).getLast? ≠ some []) :
    (tagSplit im).1 ++
      (if (tagSplit im).2 = [] then [] else ':' :: (tagSplit im).2) = im := by
  unfold tagSplit
  cases hp : splitC ':' im with
  | nil => exact absurd hp (splitC_ne_nil _ _)
  | cons p1 ps =>
      have hj := join_split ':' im
      rw [hp] at hj h
      cases ps with
      | nil =>
          simp only [joinC] at hj
          simp [hj]
      | cons p2 ps2 =>
          cases ps2 with
          | nil =>
              have hne : p2 ≠ [] := by
                intro he
                subst he
                exact h (by simp)
              simp only []
              rw [if_neg hne]
              simp only [joinC] at hj
              simpa using hj
          | cons p3 ps3 =>
              cases ps3 with
              | nil =>
                  have hne : p3 ≠ [] := by
                    intro he
                    subst he
                    exact h (by simp)
                  simp only []
                  rw [if_neg hne]
                  simp only [joinC] at hj
                  simpa using hj
              | cons p4 ps4 =>
                  simp [hj]

theorem formatRefChars_def (reg im tag : List Char) :
    formatRefChars (reg, im, tag) =
      (if reg = [] then [] else reg ++ ['/']) ++ im ++
        (if tag = [] then [] else ':' :: tag) := rfl

theorem parseRef_roundtrip_chars (s : List Char) (h : noEmptyPiecesC s = true) :
    formatRefChars (parseRefChars s) = s := by
  have hparts := h
  unfold noEmptyPiecesC at hparts
  rw [Bool.and_eq_true, List.all_eq_true, List.all_eq_true] at hparts
  have hslash : ∀ p ∈ splitC '/' s, p ≠ [] := by
    intro p hp he
    have := hparts.1 p hp
    subst he
    simp at this
  have hcolon : ∀ p ∈ splitC ':' s, p ≠ [] := by
    intro p hp he
    have := hparts.2 p hp
    subst he
    simp at this
  have hsne : s ≠ [] := by
    intro he
    subst he
    exact hslash [] (by simp [splitC]) rfl
  obtain ⟨a, ha⟩ : ∃ x, s.getLast? = some x := by
    cases hl : s.getLast? with
    | none => exact absurd (List.getLast?_eq_none_iff.mp hl) hsne
    | some x => exact ⟨x, rfl⟩
  have hac : a ≠ ':' := by
    intro he
    subst he
    have hl := splitC_getLast?_of_getLast ':' s ha
    exact hcolon [] (List.mem_of_mem_getLast? hl) rfl
  have hlast : ∀ pre im : List Char, s = pre ++ im → im ≠ [] →
      (splitC ':' im).getLast? ≠ some [] := by
    intro pre im he hne
    have him : im.getLast? = some a := by
      rw [he, List.getLast?_append] at ha
      cases hg : im.getLast? with
      | none => exact absurd (List.getLast?_eq_none_iff.mp hg) hne
      | some b =>
          rw [hg] at ha
          simpa using ha
    exact splitC_getLast?_ne ':' a im him hac
  cases hp : splitC '/' s with
  | nil => exact absurd hp (splitC_ne_nil _ _)
  | cons s0 segs =>
      have hj := join_split '/' s
      rw [hp] at hj
      cases segs with
      | nil =>
          have hrec := tagSplit_recompose s (hlast [] s (by simp) hsne)
          simp only [parseRefChars, regSplit, hp, formatRefChars_def, if_pos rfl]
          simpa using hrec
      | cons s1 segs2 =>
          have hs0 : s0 ≠ [] := hslash s0 (by rw [hp]; exact List.mem_cons_self _ _)
          cases segs2 with
          | nil =>
              simp only [joinC] at hj
              by_cases hd : matchesDomainC s0
              · have hs1 : s1 ≠ [] := by
                  refine hslash s1 ?_
                  rw [hp]
                  simp
                have hsuf : s = (s0 ++ ['/']) ++ s1 := by
                  rw [← hj]
                  simp
                have hrec := tagSplit_recompose s1 (hlast (s0 ++ ['/']) s1 hsuf hs1)
                simp only [parseRefChars, regSplit, hp, if_pos hd, formatRefChars_def,
                  if_neg hs0]
                rw [List.append_assoc, hrec]
                simpa using hj
              · have hrec := tagSplit_recompose s (hlast [] s (by simp) hsne)
                simp only [parseRefChars, regSplit, hp, if_neg hd, formatRefChars_def,
                  if_pos rfl]
                simpa using hrec
          | cons s2 rest =>
              simp only [joinC] at hj
              have him0 : joinC '/' (s1 :: s2 :: rest) ≠ [] := by
                simp only [joinC]
                simp
              have hsuf : s = (s0 ++ ['/']) ++ joinC '/' (s1 :: s2 :: rest) := by
                rw [← hj]
                simp [joinC]
              have hrec := tagSplit_recompose (joinC '/' (s1 :: s2 :: rest))
                (hlast (s0 ++ ['/']) _ hsuf him0)
              simp only [parseRefChars, regSplit, hp, formatRefChars_def, if_neg hs0]
              rw [List.append_assoc, hrec]
              simpa [joinC] using hj

/-- C2: for every image string accepted by `parse` that is a well-formed
single-registry, tag-based reference (no empty slash- or colon-piece, which
covers `myrepo/img:v1`, `registry.example.com:5000/ns/img:v2`, `img`),
formatting the parsed `(registry, repository, tag)` triple per spec section
4.1 reproduces the string exactly: `format(parse(s)) = s`. -/
theorem claim_C2 (s : String) (h : noEmptyPieces s = true) :
    format_ref (parse_ref s) = s := by
  have h2 := parseRef_roundtrip_chars s.data h
  show (⟨formatRefChars (parseRefChars s.data)⟩ : String) = s
  rw [h2]

/-- Witness for C2 at `registry.example.com:5000/ns/img:v2`. -/
theorem claim_C2_witness :
    format_ref (parse_ref "registry.example.com:5000/ns/img:v2") =
      "registry.example.com:5000/ns/img:v2" :=
  claim_C2 "registry.example.com:5000/ns/img:v2" (by decide)

/-- C9: for every image string with exactly two slash-separated segments,
`parse` takes the first segment as registry precisely when it matches the
domain regex `(localhost|label(.label)+)(:port)?`; and the three spec
examples parse as stated. -/
theorem claim_C9 (s : String) (s0 s1 : List Char)
    (h : splitC '/' s.data = [s0, s1]) :
    ((parse_ref s).1 = if matchesDomainC s0 then (⟨s0⟩ : String) else "") ∧
    parse_ref "img" = ("", "img", "") ∧
    parse_ref "localhost/img:tag" = ("localhost", "img", "tag") ∧
    parse_ref "ns/img" = ("", "ns/img", "") := by
  refine ⟨?_, by decide, by decide, by decide⟩
  show (⟨(regSplit s.data).1⟩ : String) = _
  unfold regSplit
  rw [h]
  by_cases hd : matchesDomainC s0
  · simp [hd]
  · simp [hd]

/-- Witness for C9 at `localhost/img:tag`. -/
theorem claim_C9_witness :
    (parse_ref "localhost/img:tag").1 =
      (if matchesDomainC "localhost".data then (⟨"localhost".data⟩ : String)
       else "") :=
  (claim_C9 "localhost/img:tag" "localhost".data "img:tag".data (by decide)).1

/-! `set_path` on a path whose final key is missing. -/

theorem set_path_go_finalMissing (ks : List String) :
    ∀ (d : Val) (v : String), finalMissing d ks = true →
      set_path_go d ks v = .error .keyError := by
  induction ks with
  | nil =>
      intro d v h
      cases d <;> simp [finalMissing] at h
  | cons k rest ih =>
      intro d v h
      cases rest with
      | nil =>
          cases d with
          | map es =>
              simp only [finalMissing, Bool.not_eq_true'] at h
              have hl : flookup es k = none := by
                unfold fcontains at h
                cases hl : flookup es k with
                | none => rfl
                | some x => rw [hl] at h; simp at h
              simp [set_path_go, hl]
          | str s => simp [finalMissing] at h
          | int n => simp [finalMissing] at h
          | list l => simp [finalMissing] at h
      | cons k2 rest2 =>
          cases d with
          | map es =>
              simp only [finalMissing] at h
              cases hl : flookup es k with
              | none => rw [hl] at h; simp at h
              | some d2 =>
                  rw [hl] at h
                  simp only [] at h
                  have hstep := ih d2 v h
                  have hc : fcontains es k = true := by
                    unfold fcontains
                    rw [hl]
                    rfl
                  simp [set_path_go, pyContains, hc, getItem, hl, hstep,
                    Bind.bind, Except.bind, Functor.map, Except.map]
          | str s => simp [finalMissing] at h
          | int n => simp [finalMissing] at h
          | list l => simp [finalMissing] at h

/-- C10: when every intermediate key of a dot-path exists as a mapping but
the final key is absent from the target mapping, `set_path` raises
`KeyError` instead of returning false; through `set_image_for_mapping` such
a write-back attempt aborts the whole `update_image` run (shown on a
HelmRelease whose annotation path is `web.rep` over values
`{web: {image: "old"}}`). -/
theorem claim_C10 (d : Val) (path v : String)
    (h : finalMissing d (splitStr '.' path) = true) :
    set_path d path v = .error .keyError ∧
    update_image helmC10Args [helmC10] = ([], some .keyError) :=
  ⟨set_path_go_finalMissing _ _ _ h, by decide⟩

/-- Witness for C10 at values `{web: {image: "old"}}` and path `web.rep`. -/
theorem claim_C10_witness :
    set_path (mapOf [("web", mapOf [("image", .str "old")])]) "web.rep" "z" =
      .error .keyError :=
  (claim_C10 (mapOf [("web", mapOf [("image", .str "old")])]) "web.rep" "z"
    (by decide)).1

/-! Lemmas about the document-stream loop. -/

theorem stream_update_found (f : Val → Except PyErr (Option Val)) (ds : List Val) :
    stream_update f true ds = (ds, none) := by
  induction ds with
  | nil => rfl
  | cons d ds ih => simp [stream_update, ih]

theorem stream_update_success (f : Val → Except PyErr (Option Val)) :
    ∀ (ds out : List Val), stream_update f false ds = (out, none) →
      ∃ i d d1, ds[i]? = some d ∧ f d = .ok (some d1) ∧
        (∀ j dj, j < i → ds[j]? = some dj → f dj = .ok none) ∧
        out = ds.set i d1 := by
  intro ds
  induction ds with
  | nil => intro out h; simp [stream_update] at h
  | cons d ds ih =>
      intro out h
      cases hf : f d with
      | error e =>
          rw [stream_update, hf] at h
          simp at h
      | ok o =>
          cases o with
          | none =>
              rw [stream_update, hf] at h
              have h1 := congrArg Prod.fst h
              have h2 := congrArg Prod.snd h
              simp only [] at h1 h2
              obtain ⟨i, d', d1, hg, hfd, hpre, hset⟩ :=
                ih (stream_update f false ds).1 (by rw [← h2])
              refine ⟨i + 1, d', d1, by simpa using hg, hfd, ?_, ?_⟩
              · intro j dj hj hgj
                cases j with
                | zero =>
                    simp at hgj
                    rw [← hgj]
                    exact hf
                | succ j2 =>
                    refine hpre j2 dj (by omega) (by simpa using hgj)
              · rw [← h1]
                simp [hset]
          | some d1 =>
              rw [stream_update, hf, stream_update_found] at h
              have h1 := congrArg Prod.fst h
              simp only [] at h1
              refine ⟨0, d, d1, by simp, hf, ?_, ?_⟩
              · intro j dj hj
                omega
              · rw [← h1]
                simp

theorem stream_update_success_frame (f : Val → Except PyErr (Option Val))
    (ds out : List Val) (h : stream_update f false ds = (out, none)) :
    ∃ i d d1, ds[i]? = some d ∧ f d = .ok (some d1) ∧
      (∀ j dj, j < i → ds[j]? = some dj → f dj = .ok none) ∧
      out = ds.set i d1 ∧ ∀ j, j ≠ i → out[j]? = ds[j]? := by
  obtain ⟨i, d, d1, hg, hf, hpre, hset⟩ := stream_update_success f ds out h
  exact ⟨i, d, d1, hg, hf, hpre, hset, fun j hj => by
    rw [hset]
    exact List.getElem?_set_ne (fun he => hj he.symm)⟩

/-- C3 (amended): on success both operations rewrite exactly one document —
the first whose scan finds a target (for `update-image` this is the first
manifest that both matches the selector and holds the requested container,
so a matching manifest without the container is passed over) — and every
other document passes through unchanged; on the `PodList` of three pods,
targeting the second pod's container rewrites only that pod's image. -/
theorem claim_C3_amended :
    (∀ (args : ImageArgs) (docs out : List Val),
      update_image args docs = (out, none) →
      ∃ i d d1, docs[i]? = some d ∧ process_image_doc args d = .ok (some d1) ∧
        (∀ j dj, j < i → docs[j]? = some dj → process_image_doc args dj = .ok none) ∧
        out = docs.set i d1 ∧ ∀ j, j ≠ i → out[j]? = docs[j]?) ∧
    (∀ (args : AnnArgs) (docs out : List Val),
      update_annotations args docs = (out, none) →
      ∃ i d d1, docs[i]? = some d ∧ process_ann_doc args d = .ok (some d1) ∧
        (∀ j dj, j < i → docs[j]? = some dj → process_ann_doc args dj = .ok none) ∧
        out = docs.set i d1 ∧ ∀ j, j ≠ i → out[j]? = docs[j]?) ∧
    update_image podlistArgs [podlistDoc] =
      ([mapOf [("kind", .str "PodList"),
        ("items", listOf [mkpod "p1" "i1", mkpod "p2" "newimg", mkpod "p3" "i3"])]],
       none) :=
  ⟨fun args docs out h => stream_update_success_frame _ docs out h,
   fun args docs out h => stream_update_success_frame _ docs out h,
   by decide⟩

/-- Counterexample for C3 as stated: with two manifests both matching the
selector where only the second holds container `web`, `update-image`
mutates the second matching manifest, not the first. -/
theorem claim_C3_counterexample :
    match_manifest twoDepArgs.sel (mkdep "other" "a") = .ok true ∧
    update_image twoDepArgs [mkdep "other" "a", mkdep "web" "b"] =
      ([mkdep "other" "a", mkdep "web" "new"], none) ∧
    mkdep "web" "new" ≠ mkdep "web" "b" := by decide

/-- Witness for C3 (amended) on the three-pod `PodList`. -/
theorem claim_C3_witness :
    ∃ i d d1, ([podlistDoc])[i]? = some d ∧
      process_image_doc podlistArgs d = .ok (some d1) ∧
      (∀ j dj, j < i → ([podlistDoc])[j]? = some dj →
        process_image_doc podlistArgs dj = .ok none) ∧
      [mapOf [("kind", .str "PodList"),
        ("items", listOf [mkpod "p1" "i1", mkpod "p2" "newimg", mkpod "p3" "i3"])]] =
        ([podlistDoc]).set i d1 ∧
      ∀ j, j ≠ i →
        ([mapOf [("kind", .str "PodList"),
          ("items", listOf [mkpod "p1" "i1", mkpod "p2" "newimg", mkpod "p3" "i3"])]])[j]? =
          ([podlistDoc])[j]? :=
  claim_C3_amended.1 podlistArgs [podlistDoc] _ (by decide)

/-- C4: on a HelmRelease (or FluxHelmRelease) whose values are
`{image: {repository: "foo", tag: "1.0", ...}}`, container resolution
yields exactly one container, named `chart-image` with image `foo:1.0`;
writing back `bar:2.0` sets the `repository` key to `bar` and the `tag`
key to `2.0` and leaves every other key of the values tree (here
`pullPolicy` and `replicas`) unchanged. -/
theorem claim_C4 :
    fluxhelmrelease_containers (helmC4 "HelmRelease") =
      .ok [mapOf [("name", .str "chart-image"), ("image", .str "foo:1.0")]] ∧
    fluxhelmrelease_containers (helmC4 "FluxHelmRelease") =
      .ok [mapOf [("name", .str "chart-image"), ("image", .str "foo:1.0")]] ∧
    update_image helmC4Args [helmC4 "HelmRelease"] =
      ([helmC4After "HelmRelease"], none) ∧
    update_image ⟨⟨"default", "fluxhelmrelease", "rel"⟩, "chart-image", "bar:2.0"⟩
        [helmC4 "FluxHelmRelease"] =
      ([helmC4After "FluxHelmRelease"], none) := by
  decide

/-- The nodup-key membership shape used for the replacement lemma: how the
tier-3 `replace` treats a list with no entry of the new name, and one with
a unique entry of that name. -/
theorem replaceByName_append (l : List Val) (c : Val)
    (h : ∀ x ∈ l, nameOf x ≠ nameOf c) : replaceByName l c = l ++ [c] := by
  induction l with
  | nil => rfl
  | cons x rest ih =>
      unfold replaceByName
      rw [if_neg (h x (List.mem_cons_self x rest))]
      rw [ih (fun y hy => h y (List.mem_cons_of_mem x hy))]
      rfl

theorem replaceByName_replace (l1 l2 : List Val) (x c : Val)
    (hx : nameOf x = nameOf c) (h : ∀ y ∈ l1, nameOf y ≠ nameOf c) :
    replaceByName (l1 ++ x :: l2) c = l1 ++ c :: l2 := by
  induction l1 with
  | nil => simp [replaceByName, hx]
  | cons y rest ih =>
      simp only [List.cons_append]
      unfold replaceByName
      rw [if_neg (h y (List.mem_cons_self y rest))]
      rw [ih (fun z hz => h z (List.mem_cons_of_mem y hz))]

/-- C5 (amended): an annotation-derived mapping whose `repository` dot-path
resolves in `spec.values` to a nonempty string contributes a container with
image the resolved repository when the mapping has no `tag` path, or
`repository:tag` when its `tag` path also resolves to a nonempty string
(replacing, in place, an entry of the same name from tiers 1-2 and
appending otherwise); with annotation values `web.image` / `web.version`
(dot-paths relative to `spec.values`, without the `values.` prefix of the
claim's example) over values `{web: {image: "x", version: "y"}}`, the
resolver yields exactly the container `web` with image `x:y` (replacing the
tier-2 entry for `web`), and writing back `z:9` sets `web.image` to `z` and
`web.version` to `9`. -/
theorem getItem_ok_map (v : Val) (k : String) (x : Val) (h : getItem v k = .ok x) :
    ∃ es, v = .map es ∧ flookup es k = some x := by
  cases v with
  | map es =>
      refine ⟨es, rfl, ?_⟩
      simp only [getItem] at h
      cases hl : flookup es k with
      | none => rw [hl] at h; exact absurd h (by simp)
      | some w => rw [hl] at h; simpa using h
  | str s => exact absurd h (by simp [getItem])
  | int n => exact absurd h (by simp [getItem])
  | list l => exact absurd h (by simp [getItem])

theorem claim_C5_amended (values mapping : Val) (rp r : String)
    (hrp : getItem mapping "repository" = .ok (.str rp))
    (hr : get_path values rp = .ok (some (.str r))) (hne : r ≠ "") :
    (pyContains mapping "tag" = .ok false →
      get_image_for_mapping values mapping = .ok (some r)) ∧
    (∀ tp t, getItem mapping "tag" = .ok (.str tp) →
      get_path values tp = .ok (some (.str t)) → t ≠ "" →
      get_image_for_mapping values mapping = .ok (some (r ++ ":" ++ t))) ∧
    (∀ (l : List Val) (c : Val), (∀ x ∈ l, nameOf x ≠ nameOf c) →
      replaceByName l c = l ++ [c]) ∧
    (∀ (l1 l2 : List Val) (x c : Val), nameOf x = nameOf c →
      (∀ y ∈ l1, nameOf y ≠ nameOf c) →
      replaceByName (l1 ++ x :: l2) c = l1 ++ c :: l2) ∧
    fluxhelmrelease_containers helmC5 =
      .ok [mapOf [("name", .str "web"), ("image", .str "x:y")]] ∧
    update_image helmC5Args [helmC5] = ([helmC5After], none) := by
  obtain ⟨es, hes, hlk⟩ := getItem_ok_map mapping "repository" (.str rp) hrp
  subst hes
  refine ⟨?_, ?_, replaceByName_append, replaceByName_replace, by decide, by decide⟩
  · intro htag
    have htag2 : flookup es "tag" = none := by
      simp only [pyContains, fcontains] at htag
      cases hl : flookup es "tag" with
      | none => rfl
      | some w => rw [hl] at htag; simp at htag
    simp [get_image_for_mapping, pyContains, fcontains, getItem, hlk, hr, hne,
      htag2, Bind.bind, Except.bind, pure, Except.pure]
  · intro tp t htp ht htne
    obtain ⟨es2, hes2, htlk⟩ := getItem_ok_map (.map es) "tag" (.str tp) htp
    have hes2' : es2 = es := by injection hes2.symm
    subst hes2'
    simp [get_image_for_mapping, pyContains, fcontains, getItem, hlk, hr, hne,
      htlk, ht, htne, Bind.bind, Except.bind, pure, Except.pure]

/-- Counterexample for C5 as stated: with the claim's literal annotation
values `values.web.image` / `values.web.version` over
`{web: {image: "x", version: "y"}}`, the paths do not resolve (there is no
top-level `values` key), so the resolver yields only the tier-2 container
`web` with image `x` — not `x:y` — and the write-back of `z:9` changes
nothing. -/
theorem claim_C5_counterexample :
    fluxhelmrelease_containers helmC5Lit =
      .ok [mapOf [("name", .str "web"), ("image", .str "x")]] ∧
    ("x" : String) ≠ "x:y" ∧
    update_image helmC5Args [helmC5Lit] = ([helmC5Lit], none) := by
  decide

/-- Witness for C5 (amended) at the corrected example. -/
theorem claim_C5_witness :
    get_image_for_mapping valuesC5
      (mapOf [("repository", .str "web.image"), ("tag", .str "web.version")]) =
      .ok (some ("x" ++ ":" ++ "y")) :=
  ((claim_C5_amended valuesC5
    (mapOf [("repository", .str "web.image"), ("tag", .str "web.version")])
    "web.image" "x" (by decide) (by decide) (by decide)).2.1)
    "web.version" "y" (by decide) (by decide) (by decide)

/-- C6 (amended): during Helm-style write-back, a `set_path` whose dot-path
has a missing intermediate key, or whose target value is not a string,
returns false without raising and without mutating, and
`set_image_for_mapping` discards these flags, so the mapping's write is
silently skipped; but the write-back does not fall through to the next
candidate: `set_fluxhelmrelease_container` returns after the first matching
candidate even when none of its writes applied (on `helmC6`, the annotation
mapping for `web` wins, its write fails silently, and the nested candidate
`web` is never written). -/
theorem claim_C6_amended :
    (∀ (es : Fields) (k k2 : String) (rest : List String) (v : String),
      fcontains es k = false →
      set_path_go (.map es) (k :: k2 :: rest) v = .ok (false, .map es)) ∧
    (∀ (es : Fields) (k v : String) (w : Val),
      flookup es k = some w → (∀ s, w ≠ .str s) →
      set_path_go (.map es) [k] v = .ok (false, .map es)) ∧
    update_image helmC6Args [helmC6] = ([helmC6], none) ∧
    sfhc_ann_loop helmC6 (mapOf [("web", mapOf [("image", .str "old")])])
      "web" "new:1" (fieldsOf [("web", mapOf [("repository", .str "missing.path")])]) =
      .ok (some helmC6) := by
  refine ⟨?_, ?_, by decide, by decide⟩
  · intro es k k2 rest v h
    simp [set_path_go, pyContains, h, Bind.bind, Except.bind, pure, Except.pure]
  · intro es k v w hl hw
    cases w with
    | str s => exact absurd rfl (hw s)
    | int n => simp [set_path_go, hl]
    | map m => simp [set_path_go, hl]
    | list l => simp [set_path_go, hl]

/-- Counterexample for C6 as stated: on `helmC6` the failed annotation
write does not fall through to the nested candidate `web` — the stream
comes back unchanged with no error — although writing the nested candidate
(what a fall-through would do) would have changed it. -/
theorem claim_C6_counterexample :
    fluxhelmrelease_containers helmC6 =
      .ok [mapOf [("name", .str "web"), ("image", .str "old")]] ∧
    update_image helmC6Args [helmC6] = ([helmC6], none) ∧
    set_image (mapOf [("image", .str "old")]) "new:1" =
      .ok (mapOf [("image", .str "new:1")]) := by
  decide

/-- Witness for C6 (amended): a missing first intermediate returns false
and leaves the tree unchanged. -/
theorem claim_C6_witness :
    set_path_go (.map (fieldsOf [("a", Val.str "x")])) ["b", "c"] "v" =
      .ok (false, .map (fieldsOf [("a", Val.str "x")])) :=
  claim_C6_amended.1 (fieldsOf [("a", Val.str "x")]) "b" "c" [] "v" (by decide)


theorem flookup_finsert_self : ∀ (es : Fields) (k : String) (v : Val),
    flookup (finsert es k v) k = some v
  | .nil, k, v => by simp [finsert, flookup]
  | .cons k2 w rest, k, v => by
      unfold finsert
      by_cases h : k2 = k
      · subst h; simp [flookup]
      · simp [flookup, h, flookup_finsert_self rest k v]

theorem flookup_eq_none_of_not_mem : ∀ (es : Fields) (k : String),
    k ∉ fkeys es → flookup es k = none
  | .nil, k, _ => rfl
  | .cons k2 w rest, k, h => by
      simp [fkeys] at h
      have h2 : ¬ k2 = k := fun he => h.1 he.symm
      simp [flookup, h2, flookup_eq_none_of_not_mem rest k h.2]

theorem mem_fkeys_finsert : ∀ (es : Fields) (k x : String) (v : Val),
    x ∈ fkeys (finsert es k v) → x ∈ fkeys es ∨ x = k
  | .nil, k, x, v, h => by simp [finsert, fkeys] at h; exact Or.inr h
  | .cons k2 w rest, k, x, v, h => by
      unfold finsert at h
      by_cases he : k2 = k
      · rw [if_pos he] at h
        simp [fkeys] at h ⊢
        tauto
      · rw [if_neg he] at h
        simp [fkeys] at h ⊢
        rcases h with h | h
        · tauto
        · rcases mem_fkeys_finsert rest k x v h with h2 | h2 <;> tauto

theorem nodup_fkeys_finsert : ∀ (es : Fields) (k : String) (v : Val),
    (fkeys es).Nodup → (fkeys (finsert es k v)).Nodup
  | .nil, k, v, _ => by simp [finsert, fkeys]
  | .cons k2 w rest, k, v, h => by
      unfold finsert
      by_cases he : k2 = k
      · rw [if_pos he]; exact h
      · rw [if_neg he]
        simp [fkeys] at h ⊢
        refine ⟨fun hm => ?_, nodup_fkeys_finsert rest k v h.2⟩
        rcases mem_fkeys_finsert rest k k2 v hm with h2 | h2
        · exact h.1 h2
        · exact he h2

theorem flookup_fdelete_self : ∀ (es : Fields) (k : String),
    (fkeys es).Nodup → flookup (fdelete es k) k = none
  | .nil, k, _ => rfl
  | .cons k2 w rest, k, h => by
      simp [fkeys] at h
      unfold fdelete
      by_cases he : k2 = k
      · rw [if_pos he]
        subst he
        exact flookup_eq_none_of_not_mem rest k2 h.1
      · rw [if_neg he]
        simp [flookup, he, flookup_fdelete_self rest k h.2]

theorem finsert_finsert_same : ∀ (es : Fields) (k : String) (v w : Val),
    finsert (finsert es k v) k w = finsert es k w
  | .nil, k, v, w => by simp [finsert]
  | .cons k2 x rest, k, v, w => by
      unfold finsert
      by_cases he : k2 = k
      · simp [he, finsert]
      · simp [he, finsert, finsert_finsert_same rest k v w]

theorem fdelete_absent : ∀ (es : Fields) (k : String),
    fcontains es k = false → fdelete es k = es
  | .nil, k, _ => rfl
  | .cons k2 w rest, k, h => by
      unfold fcontains flookup at h
      by_cases he : k2 = k
      · rw [if_pos he] at h; simp at h
      · rw [if_neg he] at h
        unfold fdelete
        rw [if_neg he, fdelete_absent rest k h]

/-- C8: for every matched manifest and ordered list of `(key, value)`
pairs, `update-annotations` ensures `metadata.annotations` exists (creating
an empty mapping when absent), applies the pairs in order — an empty value
deletes the key, tolerating an already-absent key, anything else sets it —
and afterwards removes the `annotations` key from `metadata` entirely when
the resulting mapping is empty; in particular a single pair `key=""` on a
manifest whose only annotation is `key` leaves `metadata` with no
`annotations` entry at all. -/
theorem claim_C8 (args : AnnArgs) (em md : Fields)
    (hmd : flookup em "metadata" = some (.map md))
    (hnd : (fkeys md).Nodup) :
    (∀ (notes : Fields) (k : String), fcontains notes k = false →
      apply_note notes (k, "") = notes) ∧
    (∀ ann : Fields, flookup md "annotations" = some (.map ann) →
      ∃ md1 : Fields, update_one_annotations args (.map em) =
          .ok (.map (finsert em "metadata" (.map md1))) ∧
        flookup md1 "annotations" =
          (if fsize (apply_notes ann args.notes) = 0 then none
           else some (.map (apply_notes ann args.notes)))) ∧
    (flookup md "annotations" = none →
      ∃ md1 : Fields, update_one_annotations args (.map em) =
          .ok (.map (finsert em "metadata" (.map md1))) ∧
        flookup md1 "annotations" =
          (if fsize (apply_notes .nil args.notes) = 0 then none
           else some (.map (apply_notes .nil args.notes)))) ∧
    update_annotations annArgsC8 [annManifest] =
      ([mapOf [("kind", .str "Deployment"),
        ("metadata", mapOf [("name", .str "app")])]], none) := by
  refine ⟨?_, ?_, ?_, by decide⟩
  · intro notes k h
    simp [apply_note, fdelete_absent notes k h]
  · intro ann hann
    by_cases hz : fsize (apply_notes ann args.notes) = 0
    · refine ⟨fdelete (finsert md "annotations" (.map (apply_notes ann args.notes)))
        "annotations", ?_, ?_⟩
      · simp [update_one_annotations, getItem, hmd, hann, setItem, pyLen, hz,
          Bind.bind, Except.bind, pure, Except.pure]
      · rw [flookup_fdelete_self _ _ (nodup_fkeys_finsert md _ _ hnd), if_pos hz]
    · refine ⟨finsert md "annotations" (.map (apply_notes ann args.notes)), ?_, ?_⟩
      · simp [update_one_annotations, getItem, hmd, hann, setItem, pyLen, hz,
          Bind.bind, Except.bind, pure, Except.pure]
      · rw [flookup_finsert_self, if_neg hz]
  · intro hann
    by_cases hz : fsize (apply_notes .nil args.notes) = 0
    · refine ⟨fdelete (finsert md "annotations" (.map (apply_notes .nil args.notes)))
        "annotations", ?_, ?_⟩
      · simp [update_one_annotations, getItem, hmd, hann, setItem, pyLen, hz,
          Bind.bind, Except.bind, pure, Except.pure, finsert_finsert_same]
      · rw [flookup_fdelete_self _ _ (nodup_fkeys_finsert md _ _ hnd), if_pos hz]
    · refine ⟨finsert md "annotations" (.map (apply_notes .nil args.notes)), ?_, ?_⟩
      · simp [update_one_annotations, getItem, hmd, hann, setItem, pyLen, hz,
          Bind.bind, Except.bind, pure, Except.pure, finsert_finsert_same]
      · rw [flookup_finsert_self, if_neg hz]

/-- Witness for C8 on `annManifest` with the single pair `key=""`. -/
theorem claim_C8_witness :
    ∃ md1 : Fields, update_one_annotations annArgsC8
        (.map (fieldsOf [("kind", Val.str "Deployment"),
          ("metadata", mapOf [("name", Val.str "app"),
            ("annotations", mapOf [("key", Val.str "v")])])])) =
        .ok (.map (finsert (fieldsOf [("kind", Val.str "Deployment"),
          ("metadata", mapOf [("name", Val.str "app"),
            ("annotations", mapOf [("key", Val.str "v")])])]) "metadata" (.map md1))) ∧
      flookup md1 "annotations" =
        (if fsize (apply_notes (fieldsOf [("key", Val.str "v")]) annArgsC8.notes) = 0
         then none
         else some (.map (apply_notes (fieldsOf [("key", Val.str "v")]) annArgsC8.notes))) :=
  (claim_C8 annArgsC8
    (fieldsOf [("kind", Val.str "Deployment"),
      ("metadata", mapOf [("name", Val.str "app"),
        ("annotations", mapOf [("key", Val.str "v")])])])
    (fieldsOf [("name", Val.str "app"), ("annotations", mapOf [("key", Val.str "v")])])
    (by decide) (by decide)).2.1 (fieldsOf [("key", Val.str "v")]) (by decide)


/-- C7 (amended): the matching functions treat a missing `kind`,
`metadata`, or `name` as a boolean no-match rather than raising; but a
matched manifest of a generic-workload kind that lacks `spec.template` (or
a CronJob lacking `spec.jobTemplate`) does not degrade to NotFound: the pod
spec lookup raises an uncaught `KeyError`, which aborts the run. -/
theorem claim_C7_amended (sel : Spec) (es : Fields) :
    (flookup es "kind" = none → match_manifest sel (.map es) = .ok false) ∧
    (∀ ks, flookup es "kind" = some (.str ks) → flookup es "metadata" = none →
      match_manifest sel (.map es) = .ok false) ∧
    (∀ ks md, flookup es "kind" = some (.str ks) →
      flookup es "metadata" = some (.map md) → flookup md "name" = none →
      match_manifest sel (.map es) = .ok false) ∧
    match_manifest badDepArgs.sel badDep = .ok true ∧
    update_image badDepArgs [badDep] = ([], some .keyError) ∧
    update_image badCronArgs [badCron] = ([], some .keyError) := by
  refine ⟨?_, ?_, ?_, by decide, by decide, by decide⟩
  · intro hk
    simp [match_manifest, getItem, hk, Bind.bind, Except.bind, pure, Except.pure]
  · intro ks hk hmd
    simp only [match_manifest, getItem, hk, Bind.bind, Except.bind, pure, Except.pure]
    by_cases hkk : strLower ks = strLower sel.kind
    · simp [hkk, hmd]
    · simp [hkk]
  · intro ks md hk hmd hname
    simp only [match_manifest, getItem, hk, hmd, Bind.bind, Except.bind,
      pure, Except.pure]
    by_cases hkk : strLower ks = strLower sel.kind
    · simp only [hkk]
      by_cases hns : (flookup md "namespace").getD (.str "default") = .str sel.ns
      · simp [getDefault, hns, hname]
      · simp [getDefault, hns, hname]
    · simp [hkk]

/-- Counterexample for C7 as stated: `badDep` matches its selector but has
no `spec.template`; `update-image` aborts with a `KeyError` (documents
already scanned are emitted, none mutated) instead of a NotFound
outcome. -/
theorem claim_C7_counterexample :
    match_manifest badDepArgs.sel badDep = .ok true ∧
    update_image badDepArgs [badDep] = ([], some .keyError) ∧
    PyErr.keyError ≠ PyErr.notFound := by decide

/-- Witness for C7 (amended): a manifest without a `kind` key never makes
matching raise. -/
theorem claim_C7_witness :
    match_manifest badDepArgs.sel (.map (fieldsOf [("metadata", mapOf [("name", Val.str "app")])])) =
      .ok false :=
  (claim_C7_amended badDepArgs.sel
    (fieldsOf [("metadata", mapOf [("name", Val.str "app")])])).1 (by decide)


/-! `NotFound` is raised in exactly two places: at the end of the stream
loop, and at the end of `set_fluxhelmrelease_container`'s candidate search.
The following lemmas show no other function produces it, and (further
below) that the candidate search cannot fail for a container that
`find_container` actually returned. -/

theorem nnf_bind {α β : Type} {x : Except PyErr α} {g : α → Except PyErr β}
    (hx : x ≠ .error .notFound) (hg : ∀ a, g a ≠ .error .notFound) :
    (x >>= g) ≠ .error .notFound := by
  cases x with
  | error e => simpa [Bind.bind, Except.bind] using hx
  | ok a => simpa [Bind.bind, Except.bind] using hg a

theorem nnf_pure {α : Type} (a : α) : (pure a : Except PyErr α) ≠ .error .notFound := by
  simp [pure, Except.pure]

theorem getItem_nnf (v : Val) (k : String) : getItem v k ≠ .error .notFound := by
  unfold getItem
  split
  · split <;> simp
  · simp

theorem getDefault_nnf (v : Val) (k : String) (d : Val) :
    getDefault v k d ≠ .error .notFound := by
  unfold getDefault
  split <;> simp

theorem setItem_nnf (v : Val) (k : String) (x : Val) :
    setItem v k x ≠ .error .notFound := by
  unfold setItem
  split <;> simp

theorem pyContains_nnf (v : Val) (k : String) : pyContains v k ≠ .error .notFound := by
  unfold pyContains
  split <;> simp

theorem pyLen_nnf (v : Val) : pyLen v ≠ .error .notFound := by
  unfold pyLen
  split <;> simp

theorem valMappings_nnf (v : Val) : valMappings v ≠ .error .notFound := by
  unfold valMappings
  split
  · simp
  · split <;> simp
  · split <;> simp
  · simp

theorem match_manifest_nnf (sel : Spec) (m : Val) :
    match_manifest sel m ≠ .error .notFound := by
  have hbody : ∀ body : Except PyErr Bool, body ≠ .error .notFound →
      (match body with
        | .error .keyError => (.ok false : Except PyErr Bool)
        | r => r) ≠ .error .notFound := by
    intro body hb
    split
    · simp
    · exact hb
  unfold match_manifest
  apply hbody
  refine nnf_bind (getItem_nnf _ _) (fun kindV => ?_)
  dsimp only
  cases kindV with
  | str s =>
      dsimp only
      rw [pure_bind]
      split
      · exact nnf_pure _
      · refine nnf_bind (getItem_nnf _ _) (fun md => ?_)
        refine nnf_bind (getDefault_nnf _ _ _) (fun nsV => ?_)
        split
        · exact nnf_pure _
        · exact nnf_bind (getItem_nnf _ _) (fun nameV => nnf_pure _)
  | int n => simp [Bind.bind, Except.bind]
  | map es => simp [Bind.bind, Except.bind]
  | list l => simp [Bind.bind, Except.bind]

theorem manifestsOf_nnf (doc : Val) : manifestsOf doc ≠ .error .notFound := by
  unfold manifestsOf
  refine nnf_bind (getItem_nnf _ _) (fun kindV => ?_)
  dsimp only
  cases kindV with
  | str s =>
      dsimp only
      rw [pure_bind]
      split
      · refine nnf_bind (getItem_nnf _ _) (fun itemsV => ?_)
        cases itemsV with
        | str s2 => try dsimp only; split <;> simp [pure, Except.pure]
        | map es => try dsimp only; split <;> simp [pure, Except.pure]
        | int n => simp
        | list l => simp [pure, Except.pure]
      · exact nnf_pure _
  | int n => simp [Bind.bind, Except.bind]
  | map es => simp [Bind.bind, Except.bind]
  | list l => simp [Bind.bind, Except.bind]

theorem podspec_nnf (m : Val) : podspec m ≠ .error .notFound := by
  unfold podspec
  refine nnf_bind (getItem_nnf _ _) (fun kindV => ?_)
  split
  · refine nnf_bind (getItem_nnf _ _) (fun s => ?_)
    refine nnf_bind (getItem_nnf _ _) (fun jt => ?_)
    refine nnf_bind (getItem_nnf _ _) (fun s2 => ?_)
    exact nnf_bind (getItem_nnf _ _) (fun t => getItem_nnf _ _)
  · refine nnf_bind (getItem_nnf _ _) (fun s => ?_)
    exact nnf_bind (getItem_nnf _ _) (fun t => getItem_nnf _ _)

theorem get_path_go_nnf : ∀ (ks : List String) (d : Val),
    get_path_go d ks ≠ .error .notFound
  | [], d => by simp [get_path_go]
  | [k], d => by
      unfold get_path_go
      split <;> simp
  | k :: k2 :: rest, d => by
      unfold get_path_go
      split
      · split
        · simp
        · exact get_path_go_nnf (k2 :: rest) _
      · simp

theorem get_path_nnf (d : Val) (p : String) : get_path d p ≠ .error .notFound :=
  get_path_go_nnf _ d

theorem merge_update_nnf : ∀ (u : Fields) (d : Val),
    merge_update d u ≠ .error .notFound
  | .nil, d => by simp [merge_update, pure, Except.pure]
  | .cons k v rest, d => by
      unfold merge_update
      dsimp only
      cases v with
      | map vm =>
          dsimp only
          refine nnf_bind (getDefault_nnf _ _ _) (fun sub => ?_)
          refine nnf_bind (merge_update_nnf vm sub) (fun sub1 => ?_)
          exact nnf_bind (setItem_nnf _ _ _) (fun d1 => merge_update_nnf rest d1)
      | str s =>
          exact nnf_bind (setItem_nnf _ _ _) (fun d1 => merge_update_nnf rest d1)
      | int n =>
          exact nnf_bind (setItem_nnf _ _ _) (fun d1 => merge_update_nnf rest d1)
      | list l =>
          exact nnf_bind (setItem_nnf _ _ _) (fun d1 => merge_update_nnf rest d1)

theorem cmfa_go_nnf : ∀ (items acc : Fields),
    container_mappings_from_annotations.go items acc ≠ .error .notFound
  | .nil, acc => by simp [container_mappings_from_annotations.go, pure, Except.pure]
  | .cons k v rest, acc => by
      unfold container_mappings_from_annotations.go
      dsimp only
      split
      · refine nnf_bind (merge_update_nnf _ _) (fun mm => ?_)
        try dsimp only
        cases mm with
        | map es => try dsimp only; rw [pure_bind]; exact cmfa_go_nnf rest es
        | str s => simp [Bind.bind, Except.bind]
        | int n => simp [Bind.bind, Except.bind]
        | list l => simp [Bind.bind, Except.bind]
      · split
        · refine nnf_bind (merge_update_nnf _ _) (fun mm => ?_)
          try dsimp only
          cases mm with
          | map es => try dsimp only; rw [pure_bind]; exact cmfa_go_nnf rest es
          | str s => simp [Bind.bind, Except.bind]
          | int n => simp [Bind.bind, Except.bind]
          | list l => simp [Bind.bind, Except.bind]
        · split
          · refine nnf_bind (merge_update_nnf _ _) (fun mm => ?_)
            try dsimp only
            cases mm with
            | map es => try dsimp only; rw [pure_bind]; exact cmfa_go_nnf rest es
            | str s => simp [Bind.bind, Except.bind]
            | int n => simp [Bind.bind, Except.bind]
            | list l => simp [Bind.bind, Except.bind]
          · try dsimp only
            rw [pure_bind]
            exact cmfa_go_nnf rest acc

theorem cmfa_nnf (m : Val) :
    container_mappings_from_annotations m ≠ .error .notFound := by
  have hwrap : ∀ r : Except PyErr Val, r ≠ .error .notFound →
      (match r with
        | .error .keyError => (.ok .nil : Except PyErr Fields)
        | .error e => .error e
        | .ok (.map items) => container_mappings_from_annotations.go items .nil
        | .ok _ => .error .typeError) ≠ .error .notFound := by
    intro r hr
    split
    · simp
    · next e he =>
        intro hh
        injection hh with hh2
        exact hr (by rw [hh2])
    · exact cmfa_go_nnf _ _
    · simp
  unfold container_mappings_from_annotations
  apply hwrap
  exact nnf_bind (getItem_nnf _ _) (fun md => getItem_nnf _ _)

theorem get_image_nnf (values : Val) : get_image values ≠ .error .notFound := by
  unfold get_image
  refine nnf_bind (getItem_nnf _ _) (fun image0 => ?_)
  try dsimp only
  refine nnf_bind (pyContains_nnf _ _) (fun hasReg => ?_)
  try dsimp only
  split
  · refine nnf_bind (getItem_nnf _ _) (fun r => ?_)
    split <;>
      · rw [pure_bind]
        refine nnf_bind (pyContains_nnf _ _) (fun hasTag => ?_)
        split
        · refine nnf_bind (getItem_nnf _ _) (fun t => ?_)
          split
          · exact nnf_pure _
          · exact nnf_pure _
        · exact nnf_pure _
  · rw [pure_bind]
    refine nnf_bind (pyContains_nnf _ _) (fun hasTag => ?_)
    split
    · refine nnf_bind (getItem_nnf _ _) (fun t => ?_)
      split
      · exact nnf_pure _
      · exact nnf_pure _
    · exact nnf_pure _

theorem gifm_nnf (values mapping : Val) :
    get_image_for_mapping values mapping ≠ .error .notFound := by
  unfold get_image_for_mapping
  refine nnf_bind (pyContains_nnf _ _) (fun hasRepo => ?_)
  split
  · exact nnf_pure _
  · refine nnf_bind (getItem_nnf _ _) (fun rpathV => ?_)
    dsimp only
    cases rpathV with
    | str p =>
        dsimp only
        rw [pure_bind]
        refine nnf_bind (get_path_nnf _ _) (fun repo? => ?_)
        cases repo? with
        | none => exact nnf_pure _
        | some rv =>
            cases rv with
            | str repository =>
                dsimp only
                split
                · exact nnf_pure _
                · refine nnf_bind (pyContains_nnf _ _) (fun hasTag => ?_)
                  split
                  · refine nnf_bind (getItem_nnf _ _) (fun tpathV => ?_)
                    dsimp only
                    cases tpathV with
                    | str p2 =>
                        dsimp only
                        rw [pure_bind]
                        refine nnf_bind (get_path_nnf _ _) (fun tag? => ?_)
                        cases tag? with
                        | none => exact nnf_pure _
                        | some tv =>
                            cases tv with
                            | str tag =>
                                dsimp only
                                split
                                · exact nnf_pure _
                                · exact nnf_pure _
                            | int n => exact nnf_pure _
                            | map es => exact nnf_pure _
                            | list l => exact nnf_pure _
                    | int n => simp [Bind.bind, Except.bind]
                    | map es => simp [Bind.bind, Except.bind]
                    | list l => simp [Bind.bind, Except.bind]
                  · exact nnf_pure _
            | int n => exact nnf_pure _
            | map es => exact nnf_pure _
            | list l => exact nnf_pure _
    | int n => simp [Bind.bind, Except.bind]
    | map es => simp [Bind.bind, Except.bind]
    | list l => simp [Bind.bind, Except.bind]

theorem tier2_nnf : ∀ (ms : List (String × Fields)) (acc : List Val),
    fluxhelmrelease_containers.tier2 ms acc ≠ .error .notFound
  | [], acc => by simp [fluxhelmrelease_containers.tier2, pure, Except.pure]
  | (k, v) :: rest, acc => by
      unfold fluxhelmrelease_containers.tier2
      split
      · refine nnf_bind (get_image_nnf _) (fun img => tier2_nnf rest _)
      · exact tier2_nnf rest acc

theorem tier3_nnf : ∀ (cm : Fields) (valuesV : Val) (acc : List Val),
    fluxhelmrelease_containers.tier3 valuesV cm acc ≠ .error .notFound
  | .nil, valuesV, acc => by
      simp [fluxhelmrelease_containers.tier3, pure, Except.pure]
  | .cons k v rest, valuesV, acc => by
      unfold fluxhelmrelease_containers.tier3
      refine nnf_bind (gifm_nnf _ _) (fun img? => ?_)
      cases img? with
      | none => exact tier3_nnf rest valuesV acc
      | some img =>
          dsimp only
          split
          · exact tier3_nnf rest valuesV acc
          · exact tier3_nnf rest valuesV _

theorem fhc_nnf (m : Val) : fluxhelmrelease_containers m ≠ .error .notFound := by
  unfold fluxhelmrelease_containers
  refine nnf_bind (getItem_nnf _ _) (fun s => ?_)
  refine nnf_bind (getItem_nnf _ _) (fun valuesV => ?_)
  refine nnf_bind (pyContains_nnf _ _) (fun hasImage => ?_)
  try dsimp only
  split
  · refine nnf_bind (get_image_nnf _) (fun img => ?_)
    rw [pure_bind]
    refine nnf_bind (valMappings_nnf _) (fun ms => ?_)
    refine nnf_bind (tier2_nnf _ _) (fun cs1 => ?_)
    exact nnf_bind (cmfa_nnf _) (fun cm => tier3_nnf _ _ _)
  · rw [pure_bind]
    refine nnf_bind (valMappings_nnf _) (fun ms => ?_)
    refine nnf_bind (tier2_nnf _ _) (fun cs1 => ?_)
    exact nnf_bind (cmfa_nnf _) (fun cm => tier3_nnf _ _ _)

theorem containersOf_nnf (m : Val) : containersOf m ≠ .error .notFound := by
  unfold containersOf
  refine nnf_bind (getItem_nnf _ _) (fun kindV => ?_)
  split
  · exact fhc_nnf m
  · refine nnf_bind (podspec_nnf _) (fun s => ?_)
    refine nnf_bind (getDefault_nnf _ _ _) (fun cs => ?_)
    refine nnf_bind (getDefault_nnf _ _ _) (fun ics => ?_)
    split <;> simp [pure, Except.pure]

theorem fc_go_nnf (args : ImageArgs) : ∀ (cs : List Val),
    find_container.go args cs ≠ .error .notFound
  | [] => by simp [find_container.go, pure, Except.pure]
  | c :: rest => by
      unfold find_container.go
      refine nnf_bind (getItem_nnf _ _) (fun n => ?_)
      split
      · exact nnf_pure _
      · exact fc_go_nnf args rest

theorem find_container_nnf (args : ImageArgs) (m : Val) :
    find_container args m ≠ .error .notFound := by
  unfold find_container
  refine nnf_bind (match_manifest_nnf _ _) (fun mm => ?_)
  split
  · exact nnf_pure _
  · exact nnf_bind (containersOf_nnf _) (fun cs => fc_go_nnf args cs)

theorem set_path_go_nnf : ∀ (ks : List String) (d : Val) (v : String),
    set_path_go d ks v ≠ .error .notFound
  | [], d, v => by simp [set_path_go]
  | [k], d, v => by
      cases d with
      | map es =>
          unfold set_path_go
          cases hl : flookup es k with
          | none => simp [hl]
          | some w => cases w <;> simp [hl]
      | str s => simp [set_path_go]
      | int n => simp [set_path_go]
      | list l => simp [set_path_go]
  | k :: k2 :: rest, d, v => by
      unfold set_path_go
      refine nnf_bind (pyContains_nnf _ _) (fun inD => ?_)
      split
      · exact nnf_pure _
      · refine nnf_bind (getItem_nnf _ _) (fun sub => ?_)
        refine nnf_bind (set_path_go_nnf (k2 :: rest) sub v) (fun r => ?_)
        split
        · exact nnf_pure _
        · simp

theorem set_path_nnf (d : Val) (p v : String) : set_path d p v ≠ .error .notFound :=
  set_path_go_nnf _ d v

theorem set_image_nnf (values : Val) (replace : String) :
    set_image values replace ≠ .error .notFound := by
  unfold set_image
  refine nnf_bind (getItem_nnf _ _) (fun image0 => ?_)
  try dsimp only
  cases image0 with
  | map im0 =>
      dsimp only
      split
      · exact setItem_nnf _ _ _
      · split <;> simp
  | str s =>
      dsimp only
      split <;> simp
  | int n =>
      dsimp only
      split <;> simp
  | list l =>
      dsimp only
      split <;> simp

theorem mappingPath_nnf (mapping : Val) (k : String) :
    mappingPath mapping k ≠ .error .notFound := by
  unfold mappingPath
  refine nnf_bind (getItem_nnf _ _) (fun p => ?_)
  cases p <;> simp [pure, Except.pure]

theorem sifm_nnf (values mapping : Val) (replace : String) :
    set_image_for_mapping values mapping replace ≠ .error .notFound := by
  unfold set_image_for_mapping
  refine nnf_bind (pyContains_nnf _ _) (fun hasReg => ?_)
  refine nnf_bind (pyContains_nnf _ _) (fun hasTag => ?_)
  try dsimp only
  split
  · refine nnf_bind (mappingPath_nnf _ _) (fun rp => ?_)
    refine nnf_bind (set_path_nnf _ _ _) (fun s1 => ?_)
    refine nnf_bind (mappingPath_nnf _ _) (fun pp => ?_)
    refine nnf_bind (set_path_nnf _ _ _) (fun s2 => ?_)
    refine nnf_bind (mappingPath_nnf _ _) (fun tp => ?_)
    exact nnf_bind (set_path_nnf _ _ _) (fun s3 => nnf_pure _)
  · split
    · refine nnf_bind (mappingPath_nnf _ _) (fun rp => ?_)
      refine nnf_bind (set_path_nnf _ _ _) (fun s1 => ?_)
      refine nnf_bind (mappingPath_nnf _ _) (fun pp => ?_)
      exact nnf_bind (set_path_nnf _ _ _) (fun s2 => nnf_pure _)
    · split
      · refine nnf_bind (mappingPath_nnf _ _) (fun pp => ?_)
        refine nnf_bind (set_path_nnf _ _ _) (fun s1 => ?_)
        refine nnf_bind (mappingPath_nnf _ _) (fun tp => ?_)
        exact nnf_bind (set_path_nnf _ _ _) (fun s2 => nnf_pure _)
      · refine nnf_bind (mappingPath_nnf _ _) (fun pp => ?_)
        exact nnf_bind (set_path_nnf _ _ _) (fun s1 => nnf_pure _)

theorem sfhc_with_values_nnf (m v1 : Val) :
    sfhc_with_values m v1 ≠ .error .notFound := by
  unfold sfhc_with_values
  refine nnf_bind (getItem_nnf _ _) (fun sV => ?_)
  exact nnf_bind (setItem_nnf _ _ _) (fun s1 => setItem_nnf _ _ _)

theorem sfhc_ann_loop_nnf : ∀ (cm : Fields) (m valuesV : Val) (cname replace : String),
    sfhc_ann_loop m valuesV cname replace cm ≠ .error .notFound
  | .nil, m, valuesV, cname, replace => by
      simp [sfhc_ann_loop, pure, Except.pure]
  | .cons k v rest, m, valuesV, cname, replace => by
      unfold sfhc_ann_loop
      refine nnf_bind (pyContains_nnf _ _) (fun hasRepo => ?_)
      split
      · refine nnf_bind (sifm_nnf _ _ _) (fun values1 => ?_)
        exact nnf_bind (sfhc_with_values_nnf _ _) (fun m1 => nnf_pure _)
      · exact sfhc_ann_loop_nnf rest m valuesV cname replace

theorem setFirstNamedI_nnf : ∀ (l : Items) (cname img : String),
    setFirstNamedI l cname img ≠ .error .notFound
  | .nil, cname, img => by simp [setFirstNamedI, pure, Except.pure]
  | .cons c rest, cname, img => by
      unfold setFirstNamedI
      refine nnf_bind (getItem_nnf _ _) (fun n => ?_)
      split
      · exact nnf_bind (setItem_nnf _ _ _) (fun c1 => nnf_pure _)
      · refine nnf_bind (setFirstNamedI_nnf rest cname img) (fun r => ?_)
        cases r <;> simp [pure, Except.pure]

theorem update_podspec_containers_nnf (s : Val) (cname img : String) :
    update_podspec_containers s cname img ≠ .error .notFound := by
  unfold update_podspec_containers
  refine nnf_bind (getDefault_nnf _ _ _) (fun cs => ?_)
  cases cs with
  | list a =>
      dsimp only
      refine nnf_bind (setFirstNamedI_nnf _ _ _) (fun r => ?_)
      cases r with
      | some a1 => exact setItem_nnf _ _ _
      | none =>
          dsimp only
          refine nnf_bind (getDefault_nnf _ _ _) (fun ics => ?_)
          cases ics with
          | list b =>
              dsimp only
              refine nnf_bind (setFirstNamedI_nnf _ _ _) (fun r2 => ?_)
              cases r2 with
              | some b1 => exact setItem_nnf _ _ _
              | none => exact nnf_pure _
          | str s2 => exact nnf_pure _
          | int n => exact nnf_pure _
          | map es => exact nnf_pure _
  | str s2 => exact nnf_pure _
  | int n => exact nnf_pure _
  | map es => exact nnf_pure _

theorem update_pod_container_image_nnf (m : Val) (cname img : String) :
    update_pod_container_image m cname img ≠ .error .notFound := by
  unfold update_pod_container_image
  refine nnf_bind (getItem_nnf _ _) (fun kindV => ?_)
  try dsimp only
  have hmod : ∀ (path : List String) (v : Val),
      modifyValAt v path (fun s => update_podspec_containers s cname img) ≠
        .error .notFound := by
    intro path
    induction path with
    | nil => intro v; exact update_podspec_containers_nnf v cname img
    | cons k rest ih =>
        intro v
        unfold modifyValAt
        refine nnf_bind (getItem_nnf _ _) (fun sub => ?_)
        exact nnf_bind (ih sub) (fun sub1 => setItem_nnf _ _ _)
  exact hmod _ m

theorem rebuild_doc_nnf (doc : Val) (r : Option (Nat × Val)) :
    rebuild_doc doc r ≠ .error .notFound := by
  unfold rebuild_doc
  cases r with
  | none => simp
  | some p =>
      refine nnf_bind (getItem_nnf _ _) (fun kindV => ?_)
      try dsimp only
      cases kindV with
      | str s =>
          dsimp only
          rw [pure_bind]
          split
          · refine nnf_bind (getItem_nnf _ _) (fun itemsV => ?_)
            cases itemsV with
            | list l => exact nnf_bind (setItem_nnf _ _ _) (fun d1 => nnf_pure _)
            | str s2 => simp
            | int n => simp
            | map es => simp
          · exact nnf_pure _
      | int n => simp [Bind.bind, Except.bind]
      | map es => simp [Bind.bind, Except.bind]
      | list l => simp [Bind.bind, Except.bind]

theorem ok_bind {α β : Type} (a : α) (g : α → Except PyErr β) :
    (Except.ok a >>= g) = g a := rfl

theorem error_bind {α β : Type} (e : PyErr) (g : α → Except PyErr β) :
    ((Except.error e : Except PyErr α) >>= g) = .error e := rfl

theorem bind_ok_iff {α β : Type} {x : Except PyErr α} {g : α → Except PyErr β}
    {b : β} : (x >>= g) = .ok b ↔ ∃ a, x = .ok a ∧ g a = .ok b := by
  cases x <;> simp [Bind.bind, Except.bind]

theorem gifm_some_hasRepo (values mp : Val) (img : String)
    (h : get_image_for_mapping values mp = .ok (some img)) :
    pyContains mp "repository" = .ok true := by
  unfold get_image_for_mapping at h
  cases hr : pyContains mp "repository" with
  | error e => rw [hr, error_bind] at h; exact absurd h (by simp)
  | ok b =>
      cases b with
      | true => rfl
      | false =>
          rw [hr, ok_bind] at h
          simp [pure, Except.pure] at h

theorem replaceByName_mem : ∀ (l : List Val) (v c : Val),
    c ∈ replaceByName l v → c ∈ l ∨ c = v
  | [], v, c, h => by
      simp [replaceByName] at h
      exact Or.inr h
  | x :: rest, v, c, h => by
      unfold replaceByName at h
      by_cases he : nameOf x = nameOf v
      · rw [if_pos he] at h
        rcases List.mem_cons.mp h with h2 | h2
        · exact Or.inr h2
        · exact Or.inl (List.mem_cons_of_mem x h2)
      · rw [if_neg he] at h
        rcases List.mem_cons.mp h with h2 | h2
        · exact Or.inl (by rw [h2]; exact List.mem_cons_self x rest)
        · rcases replaceByName_mem rest v c h2 with h3 | h3
          · exact Or.inl (List.mem_cons_of_mem x h3)
          · exact Or.inr h3

theorem tier2_mem : ∀ (ms : List (String × Fields)) (acc out : List Val) (c : Val),
    fluxhelmrelease_containers.tier2 ms acc = .ok out → c ∈ out →
    c ∈ acc ∨ ∃ k ves, (k, ves) ∈ ms ∧ fcontains ves "image" = true ∧
      nameOf c = some (.str k)
  | [], acc, out, c, h, hm => by
      simp [fluxhelmrelease_containers.tier2, pure, Except.pure] at h
      subst h
      exact Or.inl hm
  | (k, v) :: rest, acc, out, c, h, hm => by
      unfold fluxhelmrelease_containers.tier2 at h
      by_cases himg : fcontains v "image" = true
      · rw [if_pos himg] at h
        rw [bind_ok_iff] at h
        obtain ⟨img, hgi, h⟩ := h
        rcases tier2_mem rest _ out c h hm with hin | ⟨k2, ves, hkm, himg2, hname⟩
        · rcases List.mem_append.mp hin with hin2 | hin2
          · exact Or.inl hin2
          · refine Or.inr ⟨k, v, List.mem_cons_self _ _, himg, ?_⟩
            have : c = mapOf [("name", .str k), ("image", img)] := by simpa using hin2
            rw [this]
            simp [nameOf, mapOf, fieldsOf, flookup]
        · exact Or.inr ⟨k2, ves, List.mem_cons_of_mem _ hkm, himg2, hname⟩
      · rw [if_neg himg] at h
        rcases tier2_mem rest acc out c h hm with hin | ⟨k2, ves, hkm, himg2, hname⟩
        · exact Or.inl hin
        · exact Or.inr ⟨k2, ves, List.mem_cons_of_mem _ hkm, himg2, hname⟩

theorem tier3_mem : ∀ (cm : Fields) (valuesV : Val) (acc out : List Val) (c : Val),
    fluxhelmrelease_containers.tier3 valuesV cm acc = .ok out → c ∈ out →
    c ∈ acc ∨ ∃ k mv, (k, mv) ∈ cm.toList ∧
      pyContains mv "repository" = .ok true ∧ nameOf c = some (.str k)
  | .nil, valuesV, acc, out, c, h, hm => by
      simp [fluxhelmrelease_containers.tier3, pure, Except.pure] at h
      subst h
      exact Or.inl hm
  | .cons k v rest, valuesV, acc, out, c, h, hm => by
      unfold fluxhelmrelease_containers.tier3 at h
      rw [bind_ok_iff] at h
      obtain ⟨img?, hgi, h⟩ := h
      cases img? with
      | none =>
          rcases tier3_mem rest valuesV acc out c h hm with hin | ⟨k2, mv, hkm, hrepo, hname⟩
          · exact Or.inl hin
          · exact Or.inr ⟨k2, mv, by simp [Fields.toList]; exact Or.inr hkm, hrepo, hname⟩
      | some img =>
          dsimp only at h
          by_cases hz : img = ""
          · rw [if_pos hz] at h
            rcases tier3_mem rest valuesV acc out c h hm with hin | ⟨k2, mv, hkm, hrepo, hname⟩
            · exact Or.inl hin
            · exact Or.inr ⟨k2, mv, by simp [Fields.toList]; exact Or.inr hkm, hrepo, hname⟩
          · rw [if_neg hz] at h
            rcases tier3_mem rest valuesV _ out c h hm with hin | ⟨k2, mv, hkm, hrepo, hname⟩
            · rcases replaceByName_mem _ _ _ hin with hin2 | hin2
              · exact Or.inl hin2
              · refine Or.inr ⟨k, v, by simp [Fields.toList], gifm_some_hasRepo valuesV v img hgi, ?_⟩
                rw [hin2]
                simp [nameOf, mapOf, fieldsOf, flookup]
            · exact Or.inr ⟨k2, mv, by simp [Fields.toList]; exact Or.inr hkm, hrepo, hname⟩

theorem fhc_mem (m : Val) (cs : List Val) (c : Val)
    (h : fluxhelmrelease_containers m = .ok cs) (hc : c ∈ cs) :
    ∃ sV valuesV, getItem m "spec" = .ok sV ∧ getItem sV "values" = .ok valuesV ∧
      ((pyContains valuesV "image" = .ok true ∧
          nameOf c = some (.str FHR_CONTAINER)) ∨
       (∃ k ves ms, valMappings valuesV = .ok ms ∧ (k, ves) ∈ ms ∧
          fcontains ves "image" = true ∧ nameOf c = some (.str k)) ∨
       (∃ k mv cm, container_mappings_from_annotations m = .ok cm ∧
          (k, mv) ∈ cm.toList ∧ pyContains mv "repository" = .ok true ∧
          nameOf c = some (.str k))) := by
  unfold fluxhelmrelease_containers at h
  rw [bind_ok_iff] at h
  obtain ⟨sV, hs, h⟩ := h
  rw [bind_ok_iff] at h
  obtain ⟨valuesV, hv, h⟩ := h
  rw [bind_ok_iff] at h
  obtain ⟨hasImage, hhi, h⟩ := h
  dsimp only at h
  refine ⟨sV, valuesV, hs, hv, ?_⟩
  cases hasImage with
  | true =>
      rw [if_pos rfl] at h
      rw [bind_ok_iff] at h
      obtain ⟨img, hgi, h⟩ := h
      rw [pure_bind] at h
      rw [bind_ok_iff] at h
      obtain ⟨ms, hms, h⟩ := h
      rw [bind_ok_iff] at h
      obtain ⟨cs1, hcs1, h⟩ := h
      rw [bind_ok_iff] at h
      obtain ⟨cm, hcm, h⟩ := h
      rcases tier3_mem cm valuesV cs1 cs c h hc with hin1 | ⟨k, mv, hkm, hrepo, hname⟩
      · rcases tier2_mem ms _ cs1 c hcs1 hin1 with hin0 | ⟨k, ves, hkm, himg, hname⟩
        · have hce : c = mapOf [("name", .str FHR_CONTAINER), ("image", img)] := by
            simpa using hin0
          refine Or.inl ⟨hhi, ?_⟩
          rw [hce]
          simp [nameOf, mapOf, fieldsOf, flookup]
        · exact Or.inr (Or.inl ⟨k, ves, ms, hms, hkm, himg, hname⟩)
      · exact Or.inr (Or.inr ⟨k, mv, cm, hcm, hkm, hrepo, hname⟩)
  | false =>
      rw [if_neg Bool.false_ne_true] at h
      rw [pure_bind] at h
      rw [bind_ok_iff] at h
      obtain ⟨ms, hms, h⟩ := h
      rw [bind_ok_iff] at h
      obtain ⟨cs1, hcs1, h⟩ := h
      rw [bind_ok_iff] at h
      obtain ⟨cm, hcm, h⟩ := h
      rcases tier3_mem cm valuesV cs1 cs c h hc with hin1 | ⟨k, mv, hkm, hrepo, hname⟩
      · rcases tier2_mem ms _ cs1 c hcs1 hin1 with hin0 | ⟨k, ves, hkm, himg, hname⟩
        · exact absurd hin0 (List.not_mem_nil c)
        · exact Or.inr (Or.inl ⟨k, ves, ms, hms, hkm, himg, hname⟩)
      · exact Or.inr (Or.inr ⟨k, mv, cm, hcm, hkm, hrepo, hname⟩)

theorem sfhc_ann_loop_none : ∀ (cm : Fields) (m valuesV : Val) (cname replace : String),
    sfhc_ann_loop m valuesV cname replace cm = .ok none →
    ∀ (k : String) (mv : Val), (k, mv) ∈ cm.toList →
      ¬(k = cname ∧ pyContains mv "repository" = .ok true)
  | .nil, m, valuesV, cname, replace, h, k, mv, hm => by
      simp [Fields.toList] at hm
  | .cons k0 v0 rest, m, valuesV, cname, replace, h, k, mv, hm => by
      rintro ⟨hk, hrepo⟩
      unfold sfhc_ann_loop at h
      rw [bind_ok_iff] at h
      obtain ⟨hasRepo, hhr, h⟩ := h
      by_cases hg : k0 = cname ∧ hasRepo = true
      · rw [if_pos hg] at h
        rw [bind_ok_iff] at h
        obtain ⟨values1, _, h⟩ := h
        rw [bind_ok_iff] at h
        obtain ⟨m1, _, h⟩ := h
        simp [pure, Except.pure] at h
      · rw [if_neg hg] at h
        simp only [Fields.toList, List.mem_cons] at hm
        rcases hm with hm | hm
        · have hk0 : k = k0 := congrArg Prod.fst hm
          have hv0 : mv = v0 := congrArg Prod.snd hm
          refine hg ⟨by rw [← hk0]; exact hk, ?_⟩
          have h2 : pyContains v0 "repository" = .ok hasRepo := hhr
          rw [← hv0, hrepo] at h2
          injection h2 with h3
          exact h3.symm
        · exact sfhc_ann_loop_none rest m valuesV cname replace h k mv hm ⟨hk, hrepo⟩

theorem sfhc_nested_loop_reach : ∀ (ms : List (String × Fields)) (m valuesV : Val)
    (cname replace : String),
    (∃ ves, (cname, ves) ∈ ms ∧ fcontains ves "image" = true) →
    sfhc_nested_loop m valuesV cname replace ms ≠ .error .notFound
  | [], _, _, _, _, h => absurd h.choose_spec.1 (List.not_mem_nil _)
  | (k0, v0) :: rest, m, valuesV, cname, replace, ⟨ves, hm, himg⟩ => by
      unfold sfhc_nested_loop
      by_cases hg : k0 = cname ∧ fcontains v0 "image" = true
      · rw [if_pos hg]
        refine nnf_bind (set_image_nnf _ _) (fun v1 => ?_)
        exact nnf_bind (setItem_nnf _ _ _) (fun values1 => sfhc_with_values_nnf _ _)
      · rw [if_neg hg]
        refine sfhc_nested_loop_reach rest m valuesV cname replace ⟨ves, ?_, himg⟩
        rcases List.mem_cons.mp hm with h2 | h2
        · exfalso
          apply hg
          have hk0 : cname = k0 := congrArg Prod.fst h2
          have hv0 : ves = v0 := congrArg Prod.snd h2
          exact ⟨hk0.symm, by rw [← hv0]; exact himg⟩
        · exact h2

theorem nnf_error_case {α β : Type} {x : Except PyErr α} {e : PyErr}
    (hx : x ≠ .error .notFound) (he : x = .error e) :
    (Except.error e : Except PyErr β) ≠ .error .notFound := by
  intro w
  injection w with we
  exact hx (by rw [he, we])

theorem nameOf_of_getItem_name (c : Val) (cname : String)
    (hname : getItem c "name" = .ok (.str cname)) :
    nameOf c = some (.str cname) := by
  obtain ⟨ces, hces, hcl⟩ := getItem_ok_map c "name" (.str cname) hname
  rw [hces]
  simp [nameOf, hcl]

theorem sfhc_nnf_of_found (m : Val) (cs : List Val) (c : Val) (cname img : String)
    (hm : fluxhelmrelease_containers m = .ok cs) (hc : c ∈ cs)
    (hname : getItem c "name" = .ok (.str cname)) :
    set_fluxhelmrelease_container m cname img ≠ .error .notFound := by
  obtain ⟨sV, valuesV, hs, hv, hdisj⟩ := fhc_mem m cs c hm hc
  have hnm := nameOf_of_getItem_name c cname hname
  unfold set_fluxhelmrelease_container
  rw [hs, ok_bind, hv, ok_bind]
  cases hhi : pyContains valuesV "image" with
  | error e =>
      rw [error_bind]
      exact nnf_error_case (pyContains_nnf valuesV "image") hhi
  | ok hi =>
      rw [ok_bind]
      split
      · exact nnf_bind (set_image_nnf _ _) (fun values1 => sfhc_with_values_nnf _ _)
      · next hneg =>
          cases hcm2 : container_mappings_from_annotations m with
          | error e =>
              rw [error_bind]
              exact nnf_error_case (cmfa_nnf m) hcm2
          | ok cm2 =>
              rw [ok_bind]
              cases hal : sfhc_ann_loop m valuesV cname img cm2 with
              | error e =>
                  rw [error_bind]
                  exact nnf_error_case (sfhc_ann_loop_nnf cm2 m valuesV cname img) hal
              | ok r =>
                  rw [ok_bind]
                  cases r with
                  | some m1 => exact nnf_pure _
                  | none =>
                      dsimp only
                      cases hms2 : valMappings valuesV with
                      | error e =>
                          rw [error_bind]
                          exact nnf_error_case (valMappings_nnf valuesV) hms2
                      | ok ms2 =>
                          rw [ok_bind]
                          rcases hdisj with ⟨hhiT, hnmF⟩ | ⟨k, ves, ms, hms, hkm, himg2, hnm2⟩ |
                            ⟨k, mv, cm, hcm, hkm, hrepo, hnm2⟩
                          · exfalso
                            apply hneg
                            have hhit : hi = true := by
                              rw [hhi] at hhiT
                              exact Except.ok.inj hhiT
                            have hcn : cname = FHR_CONTAINER := by
                              rw [hnm] at hnmF
                              exact Val.str.inj (Option.some.inj hnmF)
                            exact ⟨hcn, hhit⟩
                          · have hke : k = cname := by
                              rw [hnm] at hnm2
                              exact (Val.str.inj (Option.some.inj hnm2)).symm
                            have hmse : ms = ms2 := by
                              rw [hms] at hms2
                              exact Except.ok.inj hms2
                            refine sfhc_nested_loop_reach ms2 m valuesV cname img
                              ⟨ves, ?_, himg2⟩
                            rw [← hmse, ← hke]
                            exact hkm
                          · exfalso
                            have hke : k = cname := by
                              rw [hnm] at hnm2
                              exact (Val.str.inj (Option.some.inj hnm2)).symm
                            have hcme : cm = cm2 := by
                              rw [hcm] at hcm2
                              exact Except.ok.inj hcm2
                            exact sfhc_ann_loop_none cm2 m valuesV cname img hal k mv
                              (hcme ▸ hkm) ⟨hke, hrepo⟩

theorem fc_go_found (args : ImageArgs) : ∀ (cs : List Val) (c : Val),
    find_container.go args cs = .ok (some c) →
    c ∈ cs ∧ getItem c "name" = .ok (.str args.container)
  | [], c, h => by simp [find_container.go, pure, Except.pure] at h
  | c0 :: rest, c, h => by
      unfold find_container.go at h
      rw [bind_ok_iff] at h
      obtain ⟨n, hn, h⟩ := h
      by_cases he : n = .str args.container
      · rw [if_pos he] at h
        have hce : c0 = c := by simpa [pure, Except.pure] using h
        subst hce
        rw [he] at hn
        exact ⟨List.mem_cons_self _ _, hn⟩
      · rw [if_neg he] at h
        obtain ⟨hmem, hh⟩ := fc_go_found args rest c h
        exact ⟨List.mem_cons_of_mem _ hmem, hh⟩

theorem find_container_found (args : ImageArgs) (m : Val) (c : Val)
    (h : find_container args m = .ok (some c)) :
    match_manifest args.sel m = .ok true ∧
    ∃ cs, containersOf m = .ok cs ∧ c ∈ cs ∧
      getItem c "name" = .ok (.str args.container) := by
  unfold find_container at h
  rw [bind_ok_iff] at h
  obtain ⟨mm, hmm, h⟩ := h
  cases mm with
  | false => simp [pure, Except.pure] at h
  | true =>
      rw [if_neg (by simp)] at h
      rw [bind_ok_iff] at h
      obtain ⟨cs, hcs, h⟩ := h
      obtain ⟨hmem, hname⟩ := fc_go_found args cs c h
      exact ⟨hmm, cs, hcs, hmem, hname⟩

theorem sci_nnf_of_found (args : ImageArgs) (m : Val) (c : Val)
    (hfc : find_container args m = .ok (some c)) :
    set_container_image m args.container args.image ≠ .error .notFound := by
  obtain ⟨hmm, cs, hcs, hmem, hname⟩ := find_container_found args m c hfc
  unfold set_container_image
  cases hk : getItem m "kind" with
  | error e =>
      rw [error_bind]
      exact nnf_error_case (getItem_nnf m "kind") hk
  | ok kindV =>
      rw [ok_bind]
      split
      · next hhelm =>
          have hfhc : fluxhelmrelease_containers m = .ok cs := by
            unfold containersOf at hcs
            rw [hk, ok_bind] at hcs
            rw [if_pos hhelm] at hcs
            exact hcs
          exact sfhc_nnf_of_found m cs c args.container args.image hfhc hmem hname
      · exact update_pod_container_image_nnf _ _ _

theorem pim_nnf (args : ImageArgs) : ∀ (ms : List Val),
    process_image_manifests args ms ≠ .error .notFound
  | [] => by simp [process_image_manifests, pure, Except.pure]
  | m :: rest => by
      unfold process_image_manifests
      cases hfc : find_container args m with
      | error e =>
          rw [error_bind]
          exact nnf_error_case (find_container_nnf args m) hfc
      | ok c? =>
          rw [ok_bind]
          cases c? with
          | some c =>
              dsimp only
              exact nnf_bind (sci_nnf_of_found args m c hfc) (fun m1 => nnf_pure _)
          | none =>
              dsimp only
              refine nnf_bind (pim_nnf args rest) (fun r => ?_)
              cases r <;> simp [pure, Except.pure]

theorem process_image_doc_nnf (args : ImageArgs) (d : Val) :
    process_image_doc args d ≠ .error .notFound := by
  unfold process_image_doc
  refine nnf_bind (manifestsOf_nnf _) (fun ms => ?_)
  exact nnf_bind (pim_nnf args ms) (fun r => rebuild_doc_nnf d r)

theorem rebuild_doc_some_ne_none (doc : Val) (p : Nat × Val) :
    rebuild_doc doc (some p) ≠ .ok none := by
  obtain ⟨i, m1⟩ := p
  unfold rebuild_doc
  try dsimp only
  cases hk : getItem doc "kind" with
  | error e => rw [error_bind]; simp
  | ok kindV =>
      rw [ok_bind]
      try dsimp only
      cases kindV with
      | str s =>
          try dsimp only
          rw [pure_bind]
          split
          · cases hi : getItem doc "items" with
            | error e => rw [error_bind]; simp
            | ok itemsV =>
                rw [ok_bind]
                cases itemsV with
                | list l =>
                    try dsimp only
                    cases hset : setItem doc "items" (.list (itemsSet l i m1)) with
                    | error e => rw [error_bind]; simp
                    | ok d1 => rw [ok_bind]; simp [pure, Except.pure]
                | str s2 => simp
                | int n => simp
                | map es => simp
          · simp [pure, Except.pure]
      | int n => simp [Bind.bind, Except.bind]
      | map es => simp [Bind.bind, Except.bind]
      | list l => simp [Bind.bind, Except.bind]

theorem pim_none_iff (args : ImageArgs) : ∀ (ms : List Val),
    process_image_manifests args ms = .ok none ↔
      ∀ m ∈ ms, find_container args m = .ok none
  | [] => by simp [process_image_manifests, pure, Except.pure]
  | m :: rest => by
      constructor
      · intro h
        unfold process_image_manifests at h
        cases hfc : find_container args m with
        | error e => rw [hfc, error_bind] at h; exact absurd h (by simp)
        | ok c? =>
            rw [hfc, ok_bind] at h
            cases c? with
            | some c =>
                dsimp only at h
                rw [bind_ok_iff] at h
                obtain ⟨m1, _, h⟩ := h
                simp [pure, Except.pure] at h
            | none =>
                dsimp only at h
                rw [bind_ok_iff] at h
                obtain ⟨r, hr, h⟩ := h
                cases r with
                | some p => simp [pure, Except.pure] at h
                | none =>
                    intro m2 hm2
                    rcases List.mem_cons.mp hm2 with hm2 | hm2
                    · rw [hm2]; exact hfc
                    · exact (pim_none_iff args rest).mp hr m2 hm2
      · intro h
        unfold process_image_manifests
        rw [h m (List.mem_cons_self _ _), ok_bind]
        dsimp only
        rw [(pim_none_iff args rest).mpr (fun m2 hm2 => h m2 (List.mem_cons_of_mem _ hm2))]
        rw [ok_bind]
        rfl

theorem process_image_doc_none_iff (args : ImageArgs) (d : Val) :
    process_image_doc args d = .ok none ↔
      ∃ ms, manifestsOf d = .ok ms ∧ ∀ m ∈ ms, find_container args m = .ok none := by
  constructor
  · intro h
    unfold process_image_doc at h
    rw [bind_ok_iff] at h
    obtain ⟨ms, hms, h⟩ := h
    rw [bind_ok_iff] at h
    obtain ⟨r, hr, h⟩ := h
    cases r with
    | some p => exact absurd h (rebuild_doc_some_ne_none d p)
    | none => exact ⟨ms, hms, (pim_none_iff args ms).mp hr⟩
  · rintro ⟨ms, hms, h⟩
    unfold process_image_doc
    rw [hms, ok_bind, (pim_none_iff args ms).mpr h, ok_bind]
    rfl

theorem stream_update_notFound_iff (f : Val → Except PyErr (Option Val))
    (hf : ∀ d, f d ≠ .error .notFound) : ∀ (ds : List Val),
    (stream_update f false ds).2 = some .notFound ↔ ∀ d ∈ ds, f d = .ok none
  | [] => by simp [stream_update]
  | d :: ds => by
      constructor
      · intro h
        cases hfd : f d with
        | error e =>
            rw [stream_update, hfd] at h
            simp at h
            exact absurd (by rw [hfd, h]) (hf d)
        | ok o =>
            cases o with
            | none =>
                rw [stream_update, hfd] at h
                simp only [] at h
                intro m hm
                rcases List.mem_cons.mp hm with hm | hm
                · rw [hm]; exact hfd
                · exact (stream_update_notFound_iff f hf ds).mp h m hm
            | some d1 =>
                rw [stream_update, hfd, stream_update_found] at h
                simp at h
      · intro h
        have hfd := h d (List.mem_cons_self _ _)
        rw [stream_update, hfd]
        simp only []
        exact (stream_update_notFound_iff f hf ds).mpr
          (fun m hm => h m (List.mem_cons_of_mem _ hm))

theorem stream_update_notFound_frame (f : Val → Except PyErr (Option Val))
    (hf : ∀ d, f d ≠ .error .notFound) : ∀ (ds : List Val),
    (stream_update f false ds).2 = some .notFound →
      (stream_update f false ds).1 = ds
  | [] => by simp [stream_update]
  | d :: ds => by
      intro h
      cases hfd : f d with
      | error e =>
          rw [stream_update, hfd] at h ⊢
          simp at h
          exact absurd (by rw [hfd, h]) (hf d)
      | ok o =>
          cases o with
          | none =>
              rw [stream_update, hfd] at h ⊢
              simp only [] at h ⊢
              rw [stream_update_notFound_frame f hf ds h]
          | some d1 =>
              rw [stream_update, hfd, stream_update_found] at h
              simp at h

/-- C1 (amended): `update-image` raises `NotFound` exactly when every
document in the stream scans cleanly — its manifests enumerable and each
one's container resolution completing — with no manifest both matching the
selector and holding a container of the requested name; a structural lookup
failure instead aborts the run with that error (a `KeyError`, see the C7
inputs), never with `NotFound`.  Whenever `NotFound` is raised, the emitted
stream is exactly the input: no document is modified. -/
theorem claim_C1_amended (args : ImageArgs) (docs : List Val) :
    ((update_image args docs).2 = some .notFound ↔
      ∀ d ∈ docs, ∃ ms, manifestsOf d = .ok ms ∧
        ∀ m ∈ ms, find_container args m = .ok none) ∧
    ((update_image args docs).2 = some .notFound →
      (update_image args docs).1 = docs) := by
  constructor
  · unfold update_image
    rw [stream_update_notFound_iff (process_image_doc args)
      (process_image_doc_nnf args) docs]
    constructor
    · intro h d hd
      exact (process_image_doc_none_iff args d).mp (h d hd)
    · intro h d hd
      exact (process_image_doc_none_iff args d).mpr (h d hd)
  · exact stream_update_notFound_frame (process_image_doc args)
      (process_image_doc_nnf args) docs

/-- Counterexample for C1 as stated: on the stream `[badDep]` no manifest
matches the selector and holds the requested container (resolution on the
matching manifest fails with a `KeyError`), yet the run does not raise
`NotFound` — it aborts with the `KeyError`. -/
theorem claim_C1_counterexample :
    match_manifest badDepArgs.sel badDep = .ok true ∧
    find_container badDepArgs badDep = .error .keyError ∧
    update_image badDepArgs [badDep] = ([], some .keyError) ∧
    some PyErr.keyError ≠ some PyErr.notFound := by decide

/-- Witness for C1 (amended) on a one-document stream whose manifest does
not match the selector. -/
theorem claim_C1_witness :
    (update_image badDepArgs [mkpod "p1" "i1"]).1 = [mkpod "p1" "i1"] :=
  (claim_C1_amended badDepArgs [mkpod "p1" "i1"]).2 (by decide)

end Kubeyaml
